import Mathlib

/-!
Verification development for the document-store integrations
(`pgvector` and `azure_ai_search` document stores).

The definitions below are a shallow embedding of
`integrations/pgvector/.../pgvector/document_store.py` and
`integrations/azure_ai_search/.../azure_ai_search/document_store.py`.
Machine floats that the stores pass through opaquely (embedding
components) are modelled as rationals; no floating-point arithmetic is
performed on them by the code under study except the score expressions,
which are modelled over the same rationals.  The database driver
(psycopg) and the Azure SDK are external collaborators: a write call's
statements run inside the call's transaction, and `rollback` discards
the statements that have not been committed, as the driver documents.
-/

namespace DocStores

/-- An embedding vector: the stores treat the components as opaque
numeric payload. -/
abbrev Vec := List Rat

/-- `haystack.dataclasses.ByteStream`: the blob payload of a document. -/
structure Blob where
  data : String
  meta : Option String
  mimeType : Option String
deriving DecidableEq, Repr

/-- A well-formed Haystack `Document` as the stores consume it: `id`
is a string; `content`, `embedding`, `dataframe` and `blob` are
optional; `meta` is a string-keyed mapping; `sparseEmbedding` is
accepted and dropped by the pgvector conversion. -/
structure Doc where
  id : String
  content : Option String
  embedding : Option Vec
  dataframe : Option String
  meta : List (String × String)
  blob : Option Blob
  sparseEmbedding : Option String := none
deriving DecidableEq, Repr

/-- `haystack.document_stores.types.DuplicatePolicy`. -/
inductive DuplicatePolicy where
  | none
  | fail
  | skip
  | overwrite
deriving DecidableEq, Repr

/-- An element of the list passed to `write_documents`.  Python does not
enforce the element type, so a batch may contain objects that are not
`Document`s at all (`notADoc`), or `Document`s whose `id` is not a
string (`docBadId`, carrying the non-string id as an integer). -/
inductive BatchElem where
  | doc (d : Doc)
  | docBadId (badId : Int)
  | notADoc
deriving DecidableEq, Repr

/-- `true` exactly on the elements that are not well-formed documents. -/
def isIllFormed : BatchElem → Bool
  | .doc _ => false
  | .docBadId _ => true
  | .notADoc => true

/-- Whether an `Except` result is a normal return. -/
def resultIsOk : Except ε α → Bool
  | .ok _ => true
  | .error _ => false

/-- What a write call did with one document of the batch, decided
per-document-id against the state the statement ran in. -/
inductive WriteAction where
  | inserted
  | overwritten
  | skipped
deriving DecidableEq, BEq, Repr

namespace Pgvector

/-- The value bound to the `id` column parameter: a string for a
well-formed document, an integer for a document with a non-string id. -/
abbrev PgId := Sum String Int

/-- One row of the store's table: the eight columns created by
`CREATE_TABLE_STATEMENT` (`id, embedding, content, dataframe,
blob_data, blob_meta, blob_mime_type, meta`). -/
structure PgRow where
  id : PgId
  embedding : Option Vec
  content : Option String
  dataframe : Option String
  blobData : Option String
  blobMeta : Option String
  blobMimeType : Option String
  meta : List (String × String)
deriving DecidableEq, Repr

/-- The table contents. -/
abbrev Table := List PgRow

/-- Row lookup by primary key. -/
def lookupRow (t : Table) (i : PgId) : Option PgRow :=
  t.find? (fun r => r.id = i)

/-- `_from_haystack_to_pg_documents` on one well-formed document:
`blob` is split into `blob_data` / `blob_meta` / `blob_mime_type`,
`sparse_embedding` is popped and dropped, the remaining fields map to
their columns. -/
def pgRowOfDoc (d : Doc) : PgRow :=
  { id := Sum.inl d.id
    embedding := d.embedding
    content := d.content
    dataframe := d.dataframe
    blobData := d.blob.map Blob.data
    blobMeta := d.blob.bind Blob.meta
    blobMimeType := d.blob.bind Blob.mimeType
    meta := d.meta }

/-- The row of parameters produced for a `Document` whose id is not a
string: the id parameter carries the non-string value, and the insert
statement fails on it before any other field matters. -/
def badIdRow (n : Int) : PgRow :=
  { id := Sum.inr n
    embedding := none
    content := none
    dataframe := none
    blobData := none
    blobMeta := none
    blobMimeType := none
    meta := [] }

/-- Errors raised by the psycopg driver during one statement:
`psycopg.IntegrityError` (a primary-key conflict) or any other
`psycopg.Error` (here: the datatype mismatch of a non-string id bound
to the `VARCHAR` id column). -/
inductive StmtErr where
  | integrityError
  | nativeError
deriving DecidableEq, Repr

/-- The errors a store call can surface: `ValueError`,
`AttributeError`, the domain errors `DuplicateDocumentError` and
`DocumentStoreError`, and an unwrapped driver error (as raised by
`psycopg.connect` outside any try/except). -/
inductive PgErr where
  | valueError
  | attributeError
  | duplicateDocumentError
  | documentStoreError
  | pgNativeError
deriving DecidableEq, Repr

/-- `_from_haystack_to_pg_documents` over the whole batch: calling
`document.to_dict` on an object that is not a `Document` raises
`AttributeError`. -/
def fromHaystackToPgDocuments : List BatchElem → Except PgErr (List PgRow)
  | [] => .ok []
  | .notADoc :: _ => .error .attributeError
  | .doc d :: rest => (fromHaystackToPgDocuments rest).map (pgRowOfDoc d :: ·)
  | .docBadId n :: rest => (fromHaystackToPgDocuments rest).map (badIdRow n :: ·)

/-- One `INSERT ... [ON CONFLICT ...] RETURNING id` statement of
`executemany`, applied to the transaction-local table state.  The
returned `Bool` says whether the statement produced a `RETURNING` row
(an inserted or updated row does; `ON CONFLICT DO NOTHING` on a
conflict does not).  A non-string id fails the bind with a driver
error; under the plain insert a conflicting id raises
`IntegrityError`. -/
def execStatement (policy : DuplicatePolicy) (tx : Table) (r : PgRow) :
    Except StmtErr (Table × Bool) :=
  match r.id with
  | Sum.inr _ => .error .nativeError
  | Sum.inl _ =>
    if (lookupRow tx r.id).isSome then
      match policy with
      | .skip => .ok (tx, false)
      | .overwrite => .ok (tx.map (fun x => if x.id = r.id then r else x), true)
      | _ => .error .integrityError
    else
      .ok (tx ++ [r], true)

/-- `cursor.executemany(sql_insert, db_documents, returning=True)`
followed by the result-set counting loop: statements run in order
inside the call's transaction; the first driver error aborts the batch;
on success the count of statements that produced a row is returned. -/
def executeMany (policy : DuplicatePolicy) (tx : Table) :
    List PgRow → Table × Except StmtErr Nat
  | [] => (tx, .ok 0)
  | r :: rs =>
    match execStatement policy tx r with
    | .error e => (tx, .error e)
    | .ok (tx', ret) =>
      match executeMany policy tx' rs with
      | (txf, .ok n) => (txf, .ok ((if ret then 1 else 0) + n))
      | (txf, .error e) => (txf, .error e)

/-- `_connected_write_documents`: the head-of-batch `isinstance` check,
`NONE` normalised to `FAIL`, conversion of the batch, `executemany`
with the policy's conflict clause, and the two exception handlers that
roll the transaction back and re-raise `DuplicateDocumentError` /
`DocumentStoreError`.  The first component of the result is the
committed table after the call (the wrapper commits on success; the
handlers roll back, so on error it is the table before the call). -/
def writeDocumentsPg (committed : Table) (batch : List BatchElem)
    (policy : DuplicatePolicy) : Table × Except PgErr Nat :=
  match batch with
  | .notADoc :: _ => (committed, .error .valueError)
  | _ =>
    let policy := if policy = .none then .fail else policy
    match fromHaystackToPgDocuments batch with
    | .error e => (committed, .error e)
    | .ok rows =>
      match executeMany policy committed rows with
      | (_, .error .integrityError) => (committed, .error .duplicateDocumentError)
      | (_, .error .nativeError) => (committed, .error .documentStoreError)
      | (tx, .ok n) => (tx, .ok n)

/-- Specification-side classification of one statement: a row whose id
was absent from the statement's transaction-local state is inserted; a
present id is skipped under SKIP and replaced under OVERWRITE. -/
def writeActionOf (policy : DuplicatePolicy) (tx : Table) (r : PgRow) :
    WriteAction :=
  if (lookupRow tx r.id).isSome then
    (if policy = .skip then .skipped else .overwritten)
  else .inserted

/-- Specification-side classification of what each statement of the
batch did; `none` when the batch aborted. -/
def writeActions (policy : DuplicatePolicy) (tx : Table) :
    List PgRow → Option (List WriteAction)
  | [] => some []
  | r :: rs =>
    match execStatement policy tx r with
    | .error _ => none
    | .ok (tx', _) =>
      (writeActions policy tx' rs).map (writeActionOf policy tx r :: ·)

end Pgvector

namespace SqlText

/-- `psycopg.sql.Identifier` rendering: a double-quoted identifier. -/
def quoteIdent (s : String) : String := "\"" ++ s ++ "\""

/-- `psycopg.sql.Literal` rendering of a string: single-quoted. -/
def sqlLit (s : String) : String := "\x27" ++ s ++ "\x27"

/-- The query text built by `delete_documents` (when the id list is
non-empty): the ids are joined into the statement text itself, each
wrapped in single quotes, and the joined fragment is spliced in as raw
`SQL`, not as a parameter. -/
def deleteDocumentsQuery (schemaName tableName : String) (ids : List String) :
    Option String :=
  if ids.isEmpty then none
  else some ("DELETE FROM " ++ quoteIdent schemaName ++ "." ++ quoteIdent tableName
    ++ " WHERE id IN ("
    ++ String.intercalate ", " (ids.map (fun i => "\x27" ++ i ++ "\x27"))
    ++ ")")

/-- A query as sent to the driver: the statement text and the ordered
parameter list. -/
structure SqlCall where
  text : String
  params : List String
deriving DecidableEq, Repr

/-- The statement text built by `_keyword_retrieval` from
`KEYWORD_QUERY`: the language is inlined as a SQL literal, the query
string position is the `%s` placeholder, and the filter `WHERE`
fragment and the `ORDER BY` tail are appended. -/
def keywordQueryText (schemaName tableName language : String)
    (whereClause : String) (topK : Nat) : String :=
  "SELECT " ++ quoteIdent tableName
    ++ ".*, ts_rank_cd(to_tsvector(" ++ sqlLit language
    ++ ", content), query) AS score FROM " ++ quoteIdent schemaName ++ "."
    ++ quoteIdent tableName ++ ", plainto_tsquery(" ++ sqlLit language
    ++ ", %s) query WHERE to_tsvector(" ++ sqlLit language
    ++ ", content) @@ query" ++ whereClause
    ++ " ORDER BY score DESC LIMIT " ++ toString topK

/-- The full `_keyword_retrieval` call: the user's query string is
passed only in the parameter tuple `(query, *where_params)`, never in
the statement text. -/
def keywordRetrievalCall (schemaName tableName language : String)
    (query : String) (whereClause : String) (whereParams : List String)
    (topK : Nat) : SqlCall :=
  { text := keywordQueryText schemaName tableName language whereClause topK
    params := query :: whereParams }

end SqlText

namespace Pgvector

/-- The three valid `vector_function` values. -/
inductive VectorFunction where
  | cosineSimilarity
  | innerProduct
  | l2Distance
deriving DecidableEq, Repr

/-- The string rendering `f.quot[el,el,...].quot` of the query
embedding that `_embedding_retrieval` builds by joining `str(el)` over
the components; the components are taken here already rendered. -/
def queryEmbeddingForPostgres (rendered : List String) : String :=
  "\x27[" ++ String.intercalate "," rendered ++ "]\x27"

/-- The `score_definition` expression of `_embedding_retrieval`, with
the rendered query embedding inlined into the expression text. -/
def scoreDefinition (vf : VectorFunction) (rendered : List String) : String :=
  match vf with
  | .cosineSimilarity =>
    "1 - (embedding <=> " ++ queryEmbeddingForPostgres rendered ++ ") AS score"
  | .innerProduct =>
    "(embedding <#> " ++ queryEmbeddingForPostgres rendered ++ ") * -1 AS score"
  | .l2Distance =>
    "embedding <-> " ++ queryEmbeddingForPostgres rendered ++ " AS score"

/-- The `sort_order` chosen by `_embedding_retrieval`: ascending
exactly for `l2_distance`. -/
def sortOrderIsAsc (vf : VectorFunction) : Bool := vf = .l2Distance

/-- The full statement text of `_embedding_retrieval`. -/
def embeddingRetrievalQueryText (schemaName tableName : String)
    (vf : VectorFunction) (rendered : List String) (whereClause : String)
    (topK : Nat) : String :=
  "SELECT *, " ++ scoreDefinition vf rendered ++ " FROM "
    ++ SqlText.quoteIdent schemaName ++ "." ++ SqlText.quoteIdent tableName
    ++ whereClause ++ " ORDER BY score "
    ++ (if sortOrderIsAsc vf then "ASC" else "DESC")
    ++ " LIMIT " ++ toString topK

/-- The value the backend's native operator yields on a row, expressed
through the metric's convention value `v` (cosine similarity, inner
product, or l2 distance of that row), per the pgvector documentation
the source points to: `<=>` is cosine distance `1 - v`, `<#>` is the
negative inner product `-v`, `<->` is the l2 distance itself. -/
def nativeOperatorValue (vf : VectorFunction) (v : Rat) : Rat :=
  match vf with
  | .cosineSimilarity => 1 - v
  | .innerProduct => -v
  | .l2Distance => v

/-- The `score` column computed from the native operator's result `x`:
`1 - (... <=> ...)`, `(... <#> ...) * -1`, or `... <-> ...`. -/
def scoreExpr (vf : VectorFunction) (x : Rat) : Rat :=
  match vf with
  | .cosineSimilarity => 1 - x
  | .innerProduct => x * (-1)
  | .l2Distance => x

/-- PostgreSQL comparison used by `ORDER BY`: a null value sorts as if
larger than every non-null value (`pgNullsHighLe a b` holds when `a`
comes no later than `b` in ascending order). -/
def pgNullsHighLe (a b : Option Rat) : Bool :=
  match a, b with
  | _, none => true
  | none, some _ => false
  | some x, some y => decide (x ≤ y)

/-- The ordered result of `_embedding_retrieval` on the scanned rows,
given as `(id, native operator value)` pairs.  The `embedding` column
is nullable and the query has no `IS NOT NULL` filter, so a row stored
without an embedding is scanned too; its native operator value is SQL
`NULL` (`Option.none`), the score expression on it is again `NULL`,
and `ORDER BY score` places it per PostgreSQL's nulls-are-largest
rule.  `LIMIT top_k` is applied last. -/
def embeddingRetrievalRanked (vf : VectorFunction)
    (rows : List (String × Option Rat)) (topK : Nat) :
    List (String × Option Rat) :=
  let scored := rows.map (fun r => (r.1, r.2.map (scoreExpr vf)))
  let sorted :=
    if sortOrderIsAsc vf then
      scored.insertionSort (fun a b => pgNullsHighLe a.2 b.2 = true)
    else scored.insertionSort (fun a b => pgNullsHighLe b.2 a.2 = true)
  sorted.take topK

/-- The ordering convention required for each metric: similarity
scores descending, distances ascending. -/
def metricOrder (vf : VectorFunction) : Rat → Rat → Prop :=
  match vf with
  | .l2Distance => fun a b => a ≤ b
  | _ => fun a b => b ≤ a

/-- The order the emitted query actually sorts the score column in:
the chosen direction over PostgreSQL's nulls-are-largest comparison,
so under `DESC` (cosine and inner product) null scores come first. -/
def pgResultOrder (vf : VectorFunction) : Option Rat → Option Rat → Prop :=
  match vf with
  | .l2Distance => fun a b => pgNullsHighLe a b = true
  | _ => fun a b => pgNullsHighLe b a = true

/-- A filter mapping, carried opaquely. -/
abbrev FilterDict := List (String × String)

/-- Whether a mapping carries a key. -/
def hasKey (f : FilterDict) (k : String) : Bool :=
  (f.map Prod.fst).contains k

/-- The base `SELECT` of `filter_documents`. -/
def pgBaseSelect (schemaName tableName : String) : String :=
  "SELECT * FROM " ++ SqlText.quoteIdent schemaName ++ "."
    ++ SqlText.quoteIdent tableName

/-- A query issued by `filter_documents`: the base text plus the
filters handed to the filter compiler (`filters.py`, outside the
sources in scope), carried opaquely. -/
structure IssuedPgQuery where
  baseText : String
  filters : Option FilterDict
deriving DecidableEq, Repr

/-- The validation-and-dispatch step of `filter_documents`: a falsy
(empty) filter mapping skips validation and compiles no `WHERE`
clause; a non-empty mapping lacking both the `operator` and the
`conditions` key raises `ValueError` before any backend call; any
other mapping is handed to the filter compiler and the query is
issued. -/
def filterDocumentsQueryPg (schemaName tableName : String)
    (filters : Option FilterDict) : Except PgErr IssuedPgQuery :=
  match filters with
  | none => .ok ⟨pgBaseSelect schemaName tableName, none⟩
  | some f =>
    if f.isEmpty then .ok ⟨pgBaseSelect schemaName tableName, none⟩
    else if !hasKey f "operator" && !hasKey f "conditions" then
      .error .valueError
    else .ok ⟨pgBaseSelect schemaName tableName, some f⟩

/-- The configuration `_handle_hnsw` works from. -/
structure HnswConfig where
  indexName : String
  recreateIfExists : Bool
  efSearch : Option Nat
deriving DecidableEq, Repr

/-- The backend state `_handle_hnsw` observes and changes: the names of
the indexes existing on the table (`pg_indexes`) and the session's
`hnsw.ef_search` setting. -/
structure HnswState where
  indexes : List String
  efSearchSetting : Option Nat
deriving DecidableEq, Repr

/-- The actions one `_handle_hnsw` call performed: how many index
builds it ran and how many staleness warnings it logged. -/
structure HnswTrace where
  builds : Nat
  warns : Nat
deriving DecidableEq, Repr

/-- `_handle_hnsw`: apply `SET hnsw.ef_search` when configured, check
`pg_indexes` for the configured index name; if it exists and the
recreate flag is off, log a warning and return; otherwise drop the
index if present and build it afresh. -/
def handleHnsw (cfg : HnswConfig) (s : HnswState) : HnswState × HnswTrace :=
  let s :=
    match cfg.efSearch with
    | some v => { s with efSearchSetting := some v }
    | none => s
  if s.indexes.contains cfg.indexName && !cfg.recreateIfExists then
    (s, ⟨0, 1⟩)
  else
    let dropped := s.indexes.filter (fun n => n ≠ cfg.indexName)
    ({ s with indexes := dropped ++ [cfg.indexName] }, ⟨1, 0⟩)

/-- The instance attributes of `PgvectorDocumentStore` touched or
readable by the `__getattr__` wrapper: `_connection`,
`_schema_is_initialized`, and all remaining (configuration)
attributes, collapsed into one opaque component. -/
structure PgStoreAttrs where
  connection : Option Nat
  schemaIsInitialized : Bool
  config : String
deriving DecidableEq, Repr

/-- The world a connected call runs in: the instance attributes, the
table contents, and whether the schema objects have been created. -/
structure PgWorld where
  attrs : PgStoreAttrs
  table : Table
  tableCreated : Bool
deriving DecidableEq, Repr

/-- `_init_schema` with `recreate_table=False`: creates the table and
keyword index if missing; it assigns no instance attribute. -/
def initSchema (w : PgWorld) : PgWorld := { w with tableCreated := true }

/-- The `_connected_method` wrapper produced by `__getattr__` for
`write_documents`: it saves `_connection`, opens a fresh connection
(`connectFails` models `psycopg.connect` raising, which no handler
catches), assigns it to `_connection`, runs `_init_schema` once under
the one-shot `_schema_is_initialized` flag (`initFails` models a
schema statement failing, wrapped by the cursor into
`DocumentStoreError`; the flag has already been set), runs the private
method, commits, and in the `finally` block restores `_connection` to
its saved value on every exit path. -/
def connectedWriteDocuments (w : PgWorld) (connectFails initFails : Bool)
    (batch : List BatchElem) (policy : DuplicatePolicy) :
    PgWorld × Except PgErr Nat :=
  let old := w.attrs.connection
  if connectFails then
    ({ w with attrs := { w.attrs with connection := old } }, .error .pgNativeError)
  else
    let wConn := { w with attrs := { w.attrs with connection := some 1 } }
    if wConn.attrs.schemaIsInitialized then
      let r := writeDocumentsPg wConn.table batch policy
      ({ wConn with
          table := r.1
          attrs := { wConn.attrs with connection := old } }, r.2)
    else
      let w1 := { wConn with
        attrs := { wConn.attrs with schemaIsInitialized := true } }
      if initFails then
        ({ w1 with attrs := { w1.attrs with connection := old } },
         .error .documentStoreError)
      else
        let w2 := initSchema w1
        let r := writeDocumentsPg w2.table batch policy
        ({ w2 with
            table := r.1
            attrs := { w2.attrs with connection := old } }, r.2)

end Pgvector

namespace Azure

/-- One record of the search index: the default schema's fields `id`,
`content` and `embedding` (the vector field is non-null, so it always
holds either a real embedding or the sentinel placeholder), plus one
field per flattened metadata key. -/
structure AzureRecord where
  id : String
  content : Option String
  embedding : Vec
  meta : List (String × String)
deriving DecidableEq, Repr

/-- The store's observable state: the search index contents, the
`_dummy_vector` instance attribute (`Option.none` models the attribute
never having been assigned, so that reading it raises
`AttributeError`), and the configured embedding dimension. -/
structure AzureState where
  index : List AzureRecord
  dummyVec : Option Vec
  dim : Nat
deriving DecidableEq, Repr

/-- `client.get_document` modelled as a lookup by key. -/
def lookupRec (t : List AzureRecord) (i : String) : Option AzureRecord :=
  t.find? (fun r => r.id = i)

/-- The sentinel placeholder vector `[-10.0] * embedding_dimension`. -/
def dummyVector (dim : Nat) : Vec := List.replicate dim (-10)

/-- An indexing action sent to `merge_or_upload_documents`: the
document's own fields with metadata flattened to top level, and a
missing embedding replaced by the sentinel. -/
structure AzureIndexDoc where
  id : String
  content : Option String
  embedding : Vec
  meta : List (String × String)
deriving DecidableEq, Repr

/-- Errors an Azure store call can surface: `ValueError` (head-of-batch
check), `AttributeError` (attribute access on a non-`Document`, or the
unset `_dummy_vector`), the bare `Exception` raised for a non-string
id, `DuplicateDocumentError`, and an unwrapped Azure SDK error (the
write path has no handler around `merge_or_upload_documents`). -/
inductive AzErr where
  | valueError
  | attributeError
  | idNotStringError
  | duplicateDocumentError
  | azureNativeError
deriving DecidableEq, Repr

/-- `_default_index_mapping`: drops `dataframe`/`blob`/
`sparse_embedding`/`score`, flattens `meta` into top-level fields, and
when the document has no embedding assigns `self._dummy_vector` and
stores the sentinel in its place. -/
def defaultIndexMapping (s : AzureState) (d : Doc) : AzureState × AzureIndexDoc :=
  match d.embedding with
  | some e => (s, ⟨d.id, d.content, e, d.meta⟩)
  | none =>
    ({ s with dummyVec := some (dummyVector s.dim) },
     ⟨d.id, d.content, dummyVector s.dim, d.meta⟩)

/-- The per-document loop of `write_documents`: `get_document` decides
existence against the index as it was at call time (the single upload
happens only after the loop), the policy picks skip / fail / overwrite,
and `_convert_input_document` validates the id and builds the indexing
action.  A `DuplicatePolicy.NONE` value matches none of the branches
and the document is silently dropped.  A non-`Document` element fails
on the `doc.id` attribute access; a `Document` with a non-string id is
never found by `get_document` and then fails the id check with a bare
`Exception`. -/
def writeLoop (s : AzureState) (index : List AzureRecord)
    (policy : DuplicatePolicy) :
    List BatchElem → AzureState × Except AzErr (List AzureIndexDoc)
  | [] => (s, .ok [])
  | .notADoc :: _ => (s, .error .attributeError)
  | .docBadId _ :: _ => (s, .error .idNotStringError)
  | .doc d :: rest =>
    match lookupRec index d.id with
    | some _ =>
      match policy with
      | .skip => writeLoop s index policy rest
      | .none => writeLoop s index policy rest
      | .fail => (s, .error .duplicateDocumentError)
      | .overwrite =>
        let p := defaultIndexMapping s d
        match writeLoop p.1 index policy rest with
        | (s2, .ok l) => (s2, .ok (p.2 :: l))
        | (s2, .error e) => (s2, .error e)
    | Option.none =>
      let p := defaultIndexMapping s d
      match writeLoop p.1 index policy rest with
      | (s2, .ok l) => (s2, .ok (p.2 :: l))
      | (s2, .error e) => (s2, .error e)

/-- The merge semantics of one `mergeOrUpload` action on an existing
record: fields present in the action are set (an explicit null clears
the field), fields absent from the action are retained from the stored
record.  The default mapping always carries `content` and `embedding`,
so only metadata keys can be absent. -/
def mergeRecord (old : AzureRecord) (a : AzureIndexDoc) : AzureRecord :=
  { id := old.id
    content := a.content
    embedding := a.embedding
    meta := a.meta ++ old.meta.filter (fun kv => !((a.meta.map Prod.fst).contains kv.1)) }

/-- A fresh record created by an upload action. -/
def recordOfIndexDoc (a : AzureIndexDoc) : AzureRecord :=
  ⟨a.id, a.content, a.embedding, a.meta⟩

/-- One action of `merge_or_upload_documents`: merge into an existing
record with the same key, otherwise upload a new record. -/
def applyIndexAction (t : List AzureRecord) (a : AzureIndexDoc) : List AzureRecord :=
  match lookupRec t a.id with
  | some _ => t.map (fun r => if r.id = a.id then mergeRecord r a else r)
  | none => t ++ [recordOfIndexDoc a]

/-- `client.merge_or_upload_documents` over the accumulated batch. -/
def mergeOrUploadDocuments (t : List AzureRecord) (batch : List AzureIndexDoc) :
    List AzureRecord :=
  batch.foldl applyIndexAction t

/-- `write_documents`: the head-of-batch `isinstance` check, the
check-then-convert loop, and the single `merge_or_upload_documents`
call issued only when there is something to write; the returned count
is the length of the accumulated list.  `uploadFails` models the Azure
service failing that one upload call: the SDK error propagates
unwrapped because the call sits in no try/except. -/
def writeDocumentsAzure (s : AzureState) (batch : List BatchElem)
    (policy : DuplicatePolicy) (uploadFails : Bool) :
    AzureState × Except AzErr Nat :=
  match batch with
  | .notADoc :: _ => (s, .error .valueError)
  | _ =>
    match writeLoop s s.index policy batch with
    | (s1, .error e) => (s1, .error e)
    | (s1, .ok toWrite) =>
      if toWrite = [] then (s1, .ok 0)
      else if uploadFails then (s1, .error .azureNativeError)
      else ({ s1 with index := mergeOrUploadDocuments s1.index toWrite },
            .ok toWrite.length)

/-- Specification-side classification of what the Azure write loop did
with each batch element, decided against the index as it was at call
time: absent ids are inserted, present ids are skipped under SKIP (and
silently dropped under NONE, also counted here as skipped) and
replaced under OVERWRITE; `none` when the call errors. -/
def azureWriteActions (index : List AzureRecord) (policy : DuplicatePolicy) :
    List BatchElem → Option (List WriteAction)
  | [] => some []
  | .doc d :: rest =>
    match lookupRec index d.id, policy with
    | some _, .skip =>
      (azureWriteActions index policy rest).map (WriteAction.skipped :: ·)
    | some _, .none =>
      (azureWriteActions index policy rest).map (WriteAction.skipped :: ·)
    | some _, .fail => none
    | some _, .overwrite =>
      (azureWriteActions index policy rest).map (WriteAction.overwritten :: ·)
    | none, _ =>
      (azureWriteActions index policy rest).map (WriteAction.inserted :: ·)
  | .docBadId _ :: _ => none
  | .notADoc :: _ => none

/-- `_convert_search_result_to_documents`: every returned record has an
`embedding` field, which is compared against `self._dummy_vector`; if
that attribute was never assigned in this session the comparison raises
`AttributeError`.  Metadata reconstruction is commented out in the
source, so the produced documents carry no metadata. -/
def convertSearchResultToDocuments (s : AzureState) :
    List AzureRecord → Except AzErr (List Doc)
  | [] => .ok []
  | r :: rest =>
    match s.dummyVec with
    | none => .error .attributeError
    | some dv =>
      let emb := if r.embedding = dv then none else some r.embedding
      (convertSearchResultToDocuments s rest).map
        (fun ds => { id := r.id, content := r.content, embedding := emb,
                     dataframe := none, meta := [], blob := none } :: ds)

/-- A filter expression given as a mapping, carried opaquely. -/
abbrev FilterDict := List (String × String)

/-- `filter_documents` of the Azure store: the filter argument is
ignored (the source marks filter support as still to be implemented),
the backend search returns every record, and the records are converted
back to documents. -/
def filterDocumentsAzure (s : AzureState) (_filters : Option FilterDict) :
    Except AzErr (List Doc) :=
  convertSearchResultToDocuments s s.index

end Azure

/-- A concrete document used as a test fixture. -/
def sampleDoc : Doc :=
  { id := "doc-1", content := some "hello", embedding := some [1, 2],
    dataframe := none, meta := [("k", "v")], blob := none }

/-- A second fixture document, without content or embedding. -/
def sampleDoc2 : Doc :=
  { id := "doc-2", content := none, embedding := none,
    dataframe := none, meta := [], blob := none }

/-! ## Theorems -/

/-- The batch conversion can only raise `AttributeError`. -/
theorem fromHaystack_error (batch : List BatchElem) (e : Pgvector.PgErr)
    (h : Pgvector.fromHaystackToPgDocuments batch = .error e) :
    e = .attributeError := by
  induction batch with
  | nil => simp [Pgvector.fromHaystackToPgDocuments] at h
  | cons b bs ih =>
    cases b with
    | notADoc =>
      simp [Pgvector.fromHaystackToPgDocuments] at h
      exact h.symm
    | doc d =>
      simp only [Pgvector.fromHaystackToPgDocuments] at h
      cases hF : Pgvector.fromHaystackToPgDocuments bs with
      | ok rows => rw [hF] at h; simp [Except.map] at h
      | error e2 => rw [hF] at h; simp [Except.map] at h; exact ih (h ▸ hF)
    | docBadId n =>
      simp only [Pgvector.fromHaystackToPgDocuments] at h
      cases hF : Pgvector.fromHaystackToPgDocuments bs with
      | ok rows => rw [hF] at h; simp [Except.map] at h
      | error e2 => rw [hF] at h; simp [Except.map] at h; exact ih (h ▸ hF)

/-- Converting a batch of well-formed documents yields their rows. -/
theorem fromHaystack_map_doc (docs : List Doc) :
    Pgvector.fromHaystackToPgDocuments (docs.map .doc) =
      .ok (docs.map Pgvector.pgRowOfDoc) := by
  induction docs with
  | nil => rfl
  | cons d ds ih => simp [Pgvector.fromHaystackToPgDocuments, ih, Except.map]

/-- A batch containing a non-`Document` fails the conversion. -/
theorem fromHaystack_notADoc_mem (batch : List BatchElem)
    (h : BatchElem.notADoc ∈ batch) :
    Pgvector.fromHaystackToPgDocuments batch = .error .attributeError := by
  induction batch with
  | nil => simp at h
  | cons b bs ih =>
    cases b with
    | notADoc => rfl
    | doc d =>
      have hb : BatchElem.notADoc ∈ bs := by simpa using h
      simp [Pgvector.fromHaystackToPgDocuments, ih hb, Except.map]
    | docBadId n =>
      have hb : BatchElem.notADoc ∈ bs := by simpa using h
      simp [Pgvector.fromHaystackToPgDocuments, ih hb, Except.map]

/-- A converted batch contains the bad-id row of every `Document`
whose id is not a string. -/
theorem fromHaystack_badId_mem (batch : List BatchElem)
    (rows : List Pgvector.PgRow) (n : Int)
    (hok : Pgvector.fromHaystackToPgDocuments batch = .ok rows)
    (hmem : BatchElem.docBadId n ∈ batch) :
    Pgvector.badIdRow n ∈ rows := by
  induction batch generalizing rows with
  | nil => simp at hmem
  | cons b bs ih =>
    cases b with
    | notADoc => simp [Pgvector.fromHaystackToPgDocuments] at hok
    | doc d =>
      have hb : BatchElem.docBadId n ∈ bs := by simpa using hmem
      simp only [Pgvector.fromHaystackToPgDocuments] at hok
      cases hF : Pgvector.fromHaystackToPgDocuments bs with
      | error e2 => rw [hF] at hok; simp [Except.map] at hok
      | ok rows2 =>
        rw [hF] at hok; simp [Except.map] at hok
        rw [← hok]
        exact List.mem_cons_of_mem _ (ih rows2 hF hb)
    | docBadId m =>
      simp only [Pgvector.fromHaystackToPgDocuments] at hok
      cases hF : Pgvector.fromHaystackToPgDocuments bs with
      | error e2 => rw [hF] at hok; simp [Except.map] at hok
      | ok rows2 =>
        rw [hF] at hok; simp [Except.map] at hok
        rcases List.mem_cons.mp hmem with heq | hb
        · cases heq
          rw [← hok]; exact List.mem_cons_self _ _
        · rw [← hok]
          exact List.mem_cons_of_mem _ (ih rows2 hF hb)

/-- A row found before an append is still found after it. -/
theorem lookupRow_append_isSome (t : Pgvector.Table) (l : Pgvector.Table)
    (i : Pgvector.PgId) (h : (Pgvector.lookupRow t i).isSome = true) :
    (Pgvector.lookupRow (t ++ l) i).isSome = true := by
  induction t with
  | nil => simp [Pgvector.lookupRow] at h
  | cons r rs ih =>
    by_cases hr : r.id = i
    · simp [Pgvector.lookupRow, List.find?, hr]
    · simp only [Pgvector.lookupRow, List.cons_append, List.find?] at h ⊢
      simp only [hr] at h ⊢
      exact ih h

/-- Appending a new row makes it findable when its id was absent. -/
theorem lookupRow_append_self (t : Pgvector.Table) (r : Pgvector.PgRow)
    (h : Pgvector.lookupRow t r.id = none) :
    Pgvector.lookupRow (t ++ [r]) r.id = some r := by
  induction t with
  | nil => simp [Pgvector.lookupRow, List.find?]
  | cons x xs ih =>
    by_cases hx : x.id = r.id
    · simp [Pgvector.lookupRow, List.find?, hx] at h
    · simp only [Pgvector.lookupRow, List.cons_append, List.find?] at h ⊢
      simp only [hx] at h ⊢
      exact ih h

/-- Replacing the row with a given id in place makes the replacement
the one found under that id. -/
theorem lookupRow_map_replace (t : Pgvector.Table) (r old : Pgvector.PgRow)
    (h : Pgvector.lookupRow t r.id = some old) :
    Pgvector.lookupRow (t.map (fun x => if x.id = r.id then r else x)) r.id =
      some r := by
  induction t with
  | nil => simp [Pgvector.lookupRow, List.find?] at h
  | cons x xs ih =>
    by_cases hx : x.id = r.id
    · simp [Pgvector.lookupRow, List.find?, hx]
    · simp only [Pgvector.lookupRow, List.map_cons, List.find?] at h ⊢
      simp only [hx, if_false] at h ⊢
      exact ih h

/-- Under the FAIL policy, a batch of well-formed documents one of
whose ids already exists aborts `executemany` with `IntegrityError`. -/
theorem executeMany_fail_dup (docs : List Doc) (tx : Pgvector.Table)
    (h : ∃ d ∈ docs, (Pgvector.lookupRow tx (Sum.inl d.id)).isSome = true) :
    (Pgvector.executeMany .fail tx (docs.map Pgvector.pgRowOfDoc)).2 =
      .error .integrityError := by
  induction docs generalizing tx with
  | nil => rcases h with ⟨d, hd, _⟩; simp at hd
  | cons d0 ds ih =>
    simp only [List.map_cons, Pgvector.executeMany]
    by_cases h0 : (Pgvector.lookupRow tx (Sum.inl d0.id)).isSome = true
    · have hE : Pgvector.execStatement .fail tx (Pgvector.pgRowOfDoc d0) =
          .error .integrityError := by
        simp [Pgvector.execStatement, Pgvector.pgRowOfDoc, h0]
      rw [hE]
    · have hE : Pgvector.execStatement .fail tx (Pgvector.pgRowOfDoc d0) =
          .ok (tx ++ [Pgvector.pgRowOfDoc d0], true) := by
        simp [Pgvector.execStatement, Pgvector.pgRowOfDoc, h0]
      rw [hE]
      dsimp only
      rcases h with ⟨d, hd, hds⟩
      have hd' : d ∈ ds := by
        rcases List.mem_cons.mp hd with rfl | h'
        · exact absurd hds h0
        · exact h'
      have hpres := lookupRow_append_isSome tx [Pgvector.pgRowOfDoc d0]
        (Sum.inl d.id) hds
      have hrec := ih (tx ++ [Pgvector.pgRowOfDoc d0]) ⟨d, hd', hpres⟩
      cases hR : Pgvector.executeMany .fail (tx ++ [Pgvector.pgRowOfDoc d0])
          (ds.map Pgvector.pgRowOfDoc) with
      | mk txf r =>
        rw [hR] at hrec
        cases r with
        | ok n => simp at hrec
        | error e => simp at hrec; simp [hrec]

/-- A batch whose converted rows contain a non-string id never
completes `executemany` normally. -/
theorem executeMany_badId (policy : DuplicatePolicy)
    (rows : List Pgvector.PgRow) (tx : Pgvector.Table)
    (h : ∃ r ∈ rows, ∃ m, r.id = Sum.inr m) :
    ∃ e, (Pgvector.executeMany policy tx rows).2 = .error e := by
  induction rows generalizing tx with
  | nil => rcases h with ⟨r, hr, _⟩; simp at hr
  | cons r0 rs ih =>
    simp only [Pgvector.executeMany]
    cases hE : Pgvector.execStatement policy tx r0 with
    | error e => exact ⟨e, rfl⟩
    | ok p =>
      obtain ⟨tx', ret⟩ := p
      have hr0 : ∀ m, r0.id ≠ Sum.inr m := by
        intro m hm
        simp [Pgvector.execStatement, hm] at hE
      rcases h with ⟨r, hr, m, hid⟩
      have hr' : r ∈ rs := by
        rcases List.mem_cons.mp hr with rfl | h'
        · exact absurd hid (hr0 m)
        · exact h'
      obtain ⟨e, he⟩ := ih tx' ⟨r, hr', m, hid⟩
      refine ⟨e, ?_⟩
      dsimp only
      cases hR : Pgvector.executeMany policy tx' rs with
      | mk txf r2 =>
        rw [hR] at he
        cases r2 with
        | ok n => simp at he
        | error e2 => simp at he; simp [he]

/-- The `RETURNING`-row indicator of a successful statement counts one
exactly when the statement inserted or overwrote. -/
theorem execStatement_ret_count (policy : DuplicatePolicy)
    (tx tx' : Pgvector.Table) (r : Pgvector.PgRow) (ret : Bool)
    (h : Pgvector.execStatement policy tx r = .ok (tx', ret)) :
    ((if ret then 1 else 0) : Nat) =
      (if Pgvector.writeActionOf policy tx r == WriteAction.inserted
        then 1 else 0) +
      (if Pgvector.writeActionOf policy tx r == WriteAction.overwritten
        then 1 else 0) := by
  unfold Pgvector.execStatement at h
  unfold Pgvector.writeActionOf
  cases hid : r.id with
  | inr m => rw [hid] at h; simp at h
  | inl idStr =>
    rw [hid] at h
    dsimp only at h
    by_cases hs : (Pgvector.lookupRow tx (Sum.inl idStr)).isSome = true
    · rw [if_pos hs] at h
      rw [if_pos hs]
      cases policy with
      | skip =>
        simp only [Except.ok.injEq, Prod.mk.injEq] at h
        obtain ⟨h1, h2⟩ := h
        subst h2
        decide
      | overwrite =>
        simp only [Except.ok.injEq, Prod.mk.injEq] at h
        obtain ⟨h1, h2⟩ := h
        subst h2
        decide
      | fail => simp at h
      | none => simp at h
    · rw [if_neg hs] at h
      rw [if_neg hs]
      simp only [Except.ok.injEq, Prod.mk.injEq] at h
      obtain ⟨h1, h2⟩ := h
      subst h2
      decide

/-- On a normal completion, the count of `RETURNING` rows is exactly
the number of statements classified inserted plus the number
classified overwritten. -/
theorem executeMany_count (policy : DuplicatePolicy)
    (rows : List Pgvector.PgRow) (tx txf : Pgvector.Table) (n : Nat)
    (h : Pgvector.executeMany policy tx rows = (txf, .ok n)) :
    ∃ acts, Pgvector.writeActions policy tx rows = some acts ∧
      n = acts.countP (· == WriteAction.inserted) +
          acts.countP (· == WriteAction.overwritten) := by
  induction rows generalizing tx txf n with
  | nil =>
    simp [Pgvector.executeMany] at h
    exact ⟨[], rfl, by rw [← h.2]; rfl⟩
  | cons r rs ih =>
    simp only [Pgvector.executeMany] at h
    cases hE : Pgvector.execStatement policy tx r with
    | error e => rw [hE] at h; simp at h
    | ok p =>
      obtain ⟨tx', ret⟩ := p
      rw [hE] at h
      dsimp only at h
      cases hR : Pgvector.executeMany policy tx' rs with
      | mk txf2 r2 =>
        rw [hR] at h
        cases r2 with
        | error e => simp at h
        | ok m =>
          simp only [Except.ok.injEq, Prod.mk.injEq] at h
          obtain ⟨hacts0, hn⟩ := h
          obtain ⟨acts, hacts, hm⟩ := ih tx' txf2 m hR
          refine ⟨Pgvector.writeActionOf policy tx r :: acts, ?_, ?_⟩
          · simp only [Pgvector.writeActions]
            rw [hE]
            simp [hacts]
          · have hcnt := execStatement_ret_count policy tx tx' r ret hE
            simp only [List.countP_cons]
            omega

/-- `write_documents` on a batch that does not start with a
non-`Document` reduces to conversion followed by `executemany` and the
two handlers. -/
theorem writePg_red (s : Pgvector.Table) (bb : BatchElem)
    (bs : List BatchElem) (policy : DuplicatePolicy)
    (hbb : bb ≠ BatchElem.notADoc) :
    Pgvector.writeDocumentsPg s (bb :: bs) policy =
      (match Pgvector.fromHaystackToPgDocuments (bb :: bs) with
      | .error e2 => (s, .error e2)
      | .ok rows =>
        match Pgvector.executeMany
            (if policy = DuplicatePolicy.none then DuplicatePolicy.fail
              else policy) s rows with
        | (_, .error .integrityError) => (s, .error .duplicateDocumentError)
        | (_, .error .nativeError) => (s, .error .documentStoreError)
        | (tx, .ok n) => (tx, .ok n)) := by
  cases bb with
  | notADoc => exact absurd rfl hbb
  | doc d => rfl
  | docBadId m => rfl

/-- `write_documents` always returns the pre-call table on an error,
and the error is a domain error, never a raw driver error. -/
theorem writePg_error_cases (s : Pgvector.Table) (batch : List BatchElem)
    (policy : DuplicatePolicy) (e : Pgvector.PgErr)
    (h : (Pgvector.writeDocumentsPg s batch policy).2 = .error e) :
    (Pgvector.writeDocumentsPg s batch policy).1 = s ∧
      (e = .valueError ∨ e = .attributeError ∨
        e = .duplicateDocumentError ∨ e = .documentStoreError) := by
  rcases batch with - | ⟨b, bs⟩
  · simp [Pgvector.writeDocumentsPg, Pgvector.fromHaystackToPgDocuments,
      Pgvector.executeMany] at h
  · have main : ∀ bb : BatchElem, bb ≠ BatchElem.notADoc →
        (Pgvector.writeDocumentsPg s (bb :: bs) policy).2 = .error e →
        (Pgvector.writeDocumentsPg s (bb :: bs) policy).1 = s ∧
          (e = .valueError ∨ e = .attributeError ∨
            e = .duplicateDocumentError ∨ e = .documentStoreError) := by
      intro bb hbb h
      rw [writePg_red s bb bs policy hbb] at h ⊢
      cases hF : Pgvector.fromHaystackToPgDocuments (bb :: bs) with
      | error e2 =>
        rw [hF] at h
        dsimp only at h ⊢
        simp at h
        subst h
        simp [Or.inr (Or.inl (fromHaystack_error _ _ hF))]
      | ok rows =>
        rw [hF] at h
        dsimp only at h ⊢
        cases hR : Pgvector.executeMany
            (if policy = DuplicatePolicy.none then DuplicatePolicy.fail
              else policy) s rows with
        | mk txf r2 =>
          rw [hR] at h
          cases r2 with
          | ok n => simp at h
          | error e2 => cases e2 <;> simp_all
    cases b with
    | notADoc =>
      constructor
      · rfl
      · have : e = Pgvector.PgErr.valueError := by
          simp [Pgvector.writeDocumentsPg] at h
          exact h.symm
        exact Or.inl this
    | doc d => exact main (.doc d) (by simp) h
    | docBadId m => exact main (.docBadId m) (by simp) h

/-- The default index mapping changes neither the index nor the
configured dimension, and preserves the document's id and metadata. -/
theorem defaultIndexMapping_frame (s : Azure.AzureState) (d : Doc) :
    (Azure.defaultIndexMapping s d).1.index = s.index ∧
    (Azure.defaultIndexMapping s d).1.dim = s.dim ∧
    (Azure.defaultIndexMapping s d).2.id = d.id ∧
    (Azure.defaultIndexMapping s d).2.meta = d.meta := by
  cases hd : d.embedding <;> simp [Azure.defaultIndexMapping, hd]

/-- The write loop never touches the index: only the one later upload
call does. -/
theorem writeLoop_index (batch : List BatchElem) (s : Azure.AzureState)
    (index : List Azure.AzureRecord) (policy : DuplicatePolicy) :
    (Azure.writeLoop s index policy batch).1.index = s.index ∧
    (Azure.writeLoop s index policy batch).1.dim = s.dim := by
  induction batch generalizing s with
  | nil => exact ⟨rfl, rfl⟩
  | cons b bs ih =>
    cases b with
    | notADoc => exact ⟨rfl, rfl⟩
    | docBadId m => exact ⟨rfl, rfl⟩
    | doc d =>
      simp only [Azure.writeLoop]
      have hframe := defaultIndexMapping_frame s d
      cases hl : Azure.lookupRec index d.id with
      | some old =>
        cases policy with
        | skip => exact ih s
        | none => exact ih s
        | fail => exact ⟨rfl, rfl⟩
        | overwrite =>
          have hrec := ih (Azure.defaultIndexMapping s d).1
          cases hR : Azure.writeLoop (Azure.defaultIndexMapping s d).1 index
              .overwrite bs with
          | mk s2 r2 =>
            rw [hR] at hrec
            cases r2 <;>
              exact ⟨hrec.1.trans hframe.1, hrec.2.trans hframe.2.1⟩
      | none =>
        have hrec := ih (Azure.defaultIndexMapping s d).1
        cases hR : Azure.writeLoop (Azure.defaultIndexMapping s d).1 index
            policy bs with
        | mk s2 r2 =>
          rw [hR] at hrec
          cases r2 <;>
            exact ⟨hrec.1.trans hframe.1, hrec.2.trans hframe.2.1⟩

/-- Under FAIL, the Azure write loop aborts with
`DuplicateDocumentError` as soon as it meets an existing id. -/
theorem writeLoop_fail_dup (docs : List Doc) (s : Azure.AzureState)
    (index : List Azure.AzureRecord)
    (h : ∃ d ∈ docs, (Azure.lookupRec index d.id).isSome = true) :
    (Azure.writeLoop s index .fail (docs.map .doc)).2 =
      .error .duplicateDocumentError := by
  induction docs generalizing s with
  | nil => rcases h with ⟨d, hd, _⟩; simp at hd
  | cons d0 ds ih =>
    simp only [List.map_cons, Azure.writeLoop]
    cases hl : Azure.lookupRec index d0.id with
    | some old => rfl
    | none =>
      rcases h with ⟨d, hd, hds⟩
      have hd' : d ∈ ds := by
        rcases List.mem_cons.mp hd with rfl | h'
        · rw [hl] at hds; simp at hds
        · exact h'
      have hrec := ih (Azure.defaultIndexMapping s d0).1 ⟨d, hd', hds⟩
      cases hR : Azure.writeLoop (Azure.defaultIndexMapping s d0).1 index
          .fail (ds.map .doc) with
      | mk s2 r2 =>
        rw [hR] at hrec
        cases r2 with
        | ok l => simp at hrec
        | error e => simp at hrec; simp [hrec]

/-- An ill-formed element anywhere in the batch makes the Azure write
loop raise. -/
theorem writeLoop_illFormed (batch : List BatchElem) (s : Azure.AzureState)
    (index : List Azure.AzureRecord) (policy : DuplicatePolicy)
    (h : batch.any isIllFormed = true) :
    ∃ e, (Azure.writeLoop s index policy batch).2 = .error e := by
  induction batch generalizing s with
  | nil => simp at h
  | cons b bs ih =>
    cases b with
    | notADoc => exact ⟨.attributeError, rfl⟩
    | docBadId m => exact ⟨.idNotStringError, rfl⟩
    | doc d =>
      have hb : bs.any isIllFormed = true := by
        simpa [isIllFormed] using h
      simp only [Azure.writeLoop]
      cases hl : Azure.lookupRec index d.id with
      | some old =>
        cases policy with
        | skip => exact ih s hb
        | none => exact ih s hb
        | fail => exact ⟨.duplicateDocumentError, rfl⟩
        | overwrite =>
          obtain ⟨e, he⟩ := ih (Azure.defaultIndexMapping s d).1 hb
          refine ⟨e, ?_⟩
          cases hR : Azure.writeLoop (Azure.defaultIndexMapping s d).1 index
              .overwrite bs with
          | mk s2 r2 =>
            rw [hR] at he
            cases r2 with
            | ok l => simp at he
            | error e2 => simp at he; simp [he]
      | none =>
        obtain ⟨e, he⟩ := ih (Azure.defaultIndexMapping s d).1 hb
        refine ⟨e, ?_⟩
        cases hR : Azure.writeLoop (Azure.defaultIndexMapping s d).1 index
            policy bs with
        | mk s2 r2 =>
          rw [hR] at he
          cases r2 with
          | ok l => simp at he
          | error e2 => simp at he; simp [he]

/-- On any error, the Azure write leaves the index unchanged: the one
upload call was either never reached or failed as a whole. -/
theorem writeAzure_error_frame (s : Azure.AzureState)
    (batch : List BatchElem) (policy : DuplicatePolicy) (uploadFails : Bool)
    (e : Azure.AzErr)
    (h : (Azure.writeDocumentsAzure s batch policy uploadFails).2 = .error e) :
    (Azure.writeDocumentsAzure s batch policy uploadFails).1.index =
      s.index := by
  have hred : ∀ bb : BatchElem, bb ≠ BatchElem.notADoc → ∀ bs,
      Azure.writeDocumentsAzure s (bb :: bs) policy uploadFails =
        (match Azure.writeLoop s s.index policy (bb :: bs) with
        | (s1, .error e2) => (s1, .error e2)
        | (s1, .ok toWrite) =>
          if toWrite = [] then (s1, .ok 0)
          else if uploadFails then (s1, .error .azureNativeError)
          else ({ s1 with
                  index := Azure.mergeOrUploadDocuments s1.index toWrite },
                .ok toWrite.length)) := by
    intro bb hbb bs
    cases bb with
    | notADoc => exact absurd rfl hbb
    | doc d => rfl
    | docBadId m => rfl
  have main : ∀ bb : BatchElem, bb ≠ BatchElem.notADoc → ∀ bs,
      (Azure.writeDocumentsAzure s (bb :: bs) policy uploadFails).2 =
        .error e →
      (Azure.writeDocumentsAzure s (bb :: bs) policy
        uploadFails).1.index = s.index := by
    intro bb hbb bs h
    rw [hred bb hbb bs] at h ⊢
    have hidx := writeLoop_index (bb :: bs) s s.index policy
    cases hL : Azure.writeLoop s s.index policy (bb :: bs) with
    | mk s1 r1 =>
      rw [hL] at hidx h
      cases r1 with
      | error e2 => exact hidx.1
      | ok toWrite =>
        dsimp only at h ⊢
        by_cases hW : toWrite = []
        · rw [if_pos hW] at h
          simp at h
        · rw [if_neg hW] at h ⊢
          cases uploadFails with
          | true => simpa using hidx.1
          | false =>
            rw [if_neg (by simp)] at h
            simp at h
  rcases batch with - | ⟨b, bs⟩
  · simp [Azure.writeDocumentsAzure, Azure.writeLoop] at h
  · cases b with
    | notADoc => rfl
    | doc d => exact main (.doc d) (by simp) bs h
    | docBadId m => exact main (.docBadId m) (by simp) bs h

/-- Under SKIP, statements on existing ids change nothing, return no
row, and the batch completes with count 0. -/
theorem executeMany_skip_existing (docs : List Doc) (tx : Pgvector.Table)
    (h : ∀ d ∈ docs, (Pgvector.lookupRow tx (Sum.inl d.id)).isSome = true) :
    Pgvector.executeMany .skip tx (docs.map Pgvector.pgRowOfDoc) =
      (tx, .ok 0) := by
  induction docs with
  | nil => rfl
  | cons d0 ds ih =>
    simp only [List.map_cons, Pgvector.executeMany]
    have hE : Pgvector.execStatement .skip tx (Pgvector.pgRowOfDoc d0) =
        .ok (tx, false) := by
      simp [Pgvector.execStatement, Pgvector.pgRowOfDoc,
        h d0 (List.mem_cons_self d0 ds)]
    rw [hE]
    dsimp only
    rw [ih (fun d hd => h d (List.mem_cons_of_mem d0 hd))]
    rfl

/-- A SKIP write of a batch whose ids all exist already returns 0 and
leaves the table untouched. -/
theorem writePg_skip_existing (s : Pgvector.Table) (docs : List Doc)
    (h : ∀ d ∈ docs, (Pgvector.lookupRow s (Sum.inl d.id)).isSome = true) :
    Pgvector.writeDocumentsPg s (docs.map .doc) .skip = (s, .ok 0) := by
  cases docs with
  | nil => rfl
  | cons d0 ds =>
    rw [show (d0 :: ds).map BatchElem.doc =
      BatchElem.doc d0 :: ds.map BatchElem.doc from rfl]
    rw [writePg_red s (.doc d0) (ds.map .doc) .skip (by simp)]
    rw [show Pgvector.fromHaystackToPgDocuments
        (BatchElem.doc d0 :: ds.map BatchElem.doc) =
      .ok ((d0 :: ds).map Pgvector.pgRowOfDoc) from fromHaystack_map_doc (d0 :: ds)]
    dsimp only
    rw [if_neg (by decide)]
    rw [executeMany_skip_existing (d0 :: ds) s h]

/-- The Azure write loop under SKIP on all-existing ids accumulates
nothing and leaves the state untouched. -/
theorem writeLoop_skip_existing (docs : List Doc) (s : Azure.AzureState)
    (index : List Azure.AzureRecord)
    (h : ∀ d ∈ docs, (Azure.lookupRec index d.id).isSome = true) :
    Azure.writeLoop s index .skip (docs.map .doc) = (s, .ok []) := by
  induction docs with
  | nil => rfl
  | cons d0 ds ih =>
    simp only [List.map_cons, Azure.writeLoop]
    have h0 := h d0 (List.mem_cons_self d0 ds)
    cases hl : Azure.lookupRec index d0.id with
    | none => rw [hl] at h0; simp at h0
    | some old => exact ih (fun d hd => h d (List.mem_cons_of_mem d0 hd))

/-- Merging preserves the key of the stored record. -/
theorem mergeRecord_id (old : Azure.AzureRecord) (a : Azure.AzureIndexDoc) :
    (Azure.mergeRecord old a).id = old.id := rfl

/-- A metadata field of the stored record whose key the incoming
action does not carry survives the merge. -/
theorem mergeRecord_meta_retained (old : Azure.AzureRecord)
    (a : Azure.AzureIndexDoc) (k v : String)
    (hmem : (k, v) ∈ old.meta)
    (hk : (a.meta.map Prod.fst).contains k = false) :
    (k, v) ∈ (Azure.mergeRecord old a).meta := by
  simp only [Azure.mergeRecord, List.mem_append]
  right
  rw [List.mem_filter]
  exact ⟨hmem, by simpa using hk⟩

/-- After merging into the record stored under the action's key, that
key holds the merged record. -/
theorem lookupRec_map_merge (t : List Azure.AzureRecord)
    (a : Azure.AzureIndexDoc) (old : Azure.AzureRecord)
    (h : Azure.lookupRec t a.id = some old) :
    Azure.lookupRec
        (t.map (fun r => if r.id = a.id then Azure.mergeRecord r a else r))
        a.id = some (Azure.mergeRecord old a) := by
  induction t with
  | nil => simp [Azure.lookupRec, List.find?] at h
  | cons x xs ih =>
    by_cases hx : x.id = a.id
    · have hold : old = x := by
        simp [Azure.lookupRec, List.find?, hx] at h
        exact h.symm
      subst hold
      simp [Azure.lookupRec, List.find?, hx, mergeRecord_id]
    · simp only [Azure.lookupRec, List.map_cons, List.find?] at h ⊢
      simp only [hx, if_false] at h ⊢
      exact ih h

/-- The list accumulated by the Azure write loop has exactly one
element per batch element classified inserted or overwritten. -/
theorem writeLoop_count (batch : List BatchElem) (s s1 : Azure.AzureState)
    (index : List Azure.AzureRecord) (policy : DuplicatePolicy)
    (l : List Azure.AzureIndexDoc)
    (h : Azure.writeLoop s index policy batch = (s1, .ok l)) :
    ∃ acts, Azure.azureWriteActions index policy batch = some acts ∧
      l.length = acts.countP (· == WriteAction.inserted) +
        acts.countP (· == WriteAction.overwritten) := by
  induction batch generalizing s s1 l with
  | nil =>
    simp [Azure.writeLoop] at h
    exact ⟨[], rfl, by rw [h.2]; rfl⟩
  | cons b bs ih =>
    cases b with
    | notADoc => simp [Azure.writeLoop] at h
    | docBadId m => simp [Azure.writeLoop] at h
    | doc d =>
      simp only [Azure.writeLoop] at h
      simp only [Azure.azureWriteActions]
      cases hl : Azure.lookupRec index d.id with
      | some old =>
        rw [hl] at h
        dsimp only at h
        cases policy with
        | skip =>
          obtain ⟨acts, ha, hlen⟩ := ih s s1 l h
          refine ⟨WriteAction.skipped :: acts, by rw [ha]; rfl, ?_⟩
          simp only [List.countP_cons]
          simpa using hlen
        | none =>
          obtain ⟨acts, ha, hlen⟩ := ih s s1 l h
          refine ⟨WriteAction.skipped :: acts, by rw [ha]; rfl, ?_⟩
          simp only [List.countP_cons]
          simpa using hlen
        | fail => simp at h
        | overwrite =>
          cases hR : Azure.writeLoop (Azure.defaultIndexMapping s d).1 index
              .overwrite bs with
          | mk s2 r2 =>
            rw [hR] at h
            cases r2 with
            | error e => simp at h
            | ok l2 =>
              simp at h
              obtain ⟨acts, ha, hlen⟩ := ih _ s2 l2 hR
              refine ⟨WriteAction.overwritten :: acts, by rw [ha]; rfl, ?_⟩
              rw [← h.2]
              rw [List.countP_cons_of_neg _ _ (by decide),
                List.countP_cons_of_pos _ _ (by decide)]
              simp only [List.length_cons, hlen]
              omega
      | none =>
        rw [hl] at h
        dsimp only at h
        cases hR : Azure.writeLoop (Azure.defaultIndexMapping s d).1 index
            policy bs with
        | mk s2 r2 =>
          rw [hR] at h
          cases r2 with
          | error e => simp at h
          | ok l2 =>
            simp at h
            obtain ⟨acts, ha, hlen⟩ := ih _ s2 l2 hR
            refine ⟨WriteAction.inserted :: acts, ?_, ?_⟩
            · cases policy <;> simp [ha]
            · rw [← h.2]
              rw [List.countP_cons_of_pos _ _ (by decide),
                List.countP_cons_of_neg _ _ (by decide)]
              simp only [List.length_cons, hlen]
              omega

/-- On a normal Azure write, the returned count is the length of the
accumulated upload list. -/
theorem writeAzure_ok_count (s s' : Azure.AzureState)
    (batch : List BatchElem) (policy : DuplicatePolicy) (uploadFails : Bool)
    (n : Nat)
    (h : Azure.writeDocumentsAzure s batch policy uploadFails = (s', .ok n)) :
    ∃ acts, Azure.azureWriteActions s.index policy batch = some acts ∧
      n = acts.countP (· == WriteAction.inserted) +
        acts.countP (· == WriteAction.overwritten) := by
  rcases batch with - | ⟨b, bs⟩
  · simp [Azure.writeDocumentsAzure, Azure.writeLoop] at h
    exact ⟨[], rfl, by rw [← h.2]; rfl⟩
  · have main : ∀ bb : BatchElem, bb ≠ BatchElem.notADoc →
        Azure.writeDocumentsAzure s (bb :: bs) policy uploadFails =
          (s', .ok n) →
        ∃ acts, Azure.azureWriteActions s.index policy (bb :: bs) =
            some acts ∧
          n = acts.countP (· == WriteAction.inserted) +
            acts.countP (· == WriteAction.overwritten) := by
      intro bb hbb h
      have hred : Azure.writeDocumentsAzure s (bb :: bs) policy uploadFails =
          (match Azure.writeLoop s s.index policy (bb :: bs) with
          | (s1, .error e2) => (s1, .error e2)
          | (s1, .ok toWrite) =>
            if toWrite = [] then (s1, .ok 0)
            else if uploadFails then (s1, .error .azureNativeError)
            else ({ s1 with
                    index := Azure.mergeOrUploadDocuments s1.index toWrite },
                  .ok toWrite.length)) := by
        cases bb with
        | notADoc => exact absurd rfl hbb
        | doc d => rfl
        | docBadId m => rfl
      rw [hred] at h
      cases hL : Azure.writeLoop s s.index policy (bb :: bs) with
      | mk s1 r1 =>
        rw [hL] at h
        cases r1 with
        | error e2 => simp at h
        | ok toWrite =>
          have hn : n = toWrite.length := by
            dsimp only at h
            by_cases hW : toWrite = []
            · rw [if_pos hW] at h
              simp at h
              rw [← h.2, hW]
              rfl
            · rw [if_neg hW] at h
              cases uploadFails with
              | true => simp at h
              | false =>
                rw [if_neg (by simp)] at h
                simp at h
                exact h.2.symm
          obtain ⟨acts, ha, hlen⟩ := writeLoop_count (bb :: bs) s s1
            s.index policy toWrite hL
          exact ⟨acts, ha, by rw [hn, hlen]⟩
    cases b with
    | notADoc => simp [Azure.writeDocumentsAzure] at h
    | doc d => exact main (.doc d) (by simp) h
    | docBadId m => exact main (.docBadId m) (by simp) h

/-- An OVERWRITE write of a single well-formed document succeeds with
count 1 and leaves, under the document's id, exactly the row converted
from the incoming document: every column carries the incoming value,
whether the id existed before (in-place replacement of all fields) or
not (insertion). -/
theorem writePg_overwrite_single (s : Pgvector.Table) (d : Doc) :
    ∃ s', Pgvector.writeDocumentsPg s [.doc d] .overwrite = (s', .ok 1) ∧
      Pgvector.lookupRow s' (Sum.inl d.id) = some (Pgvector.pgRowOfDoc d) := by
  rw [show ([BatchElem.doc d] : List BatchElem) = BatchElem.doc d :: [] from rfl]
  rw [writePg_red s (.doc d) [] .overwrite (by simp)]
  rw [show Pgvector.fromHaystackToPgDocuments [BatchElem.doc d] =
    .ok [Pgvector.pgRowOfDoc d] from fromHaystack_map_doc [d]]
  dsimp only
  rw [if_neg (by decide)]
  have hid : (Pgvector.pgRowOfDoc d).id = Sum.inl d.id := rfl
  by_cases hs : (Pgvector.lookupRow s (Sum.inl d.id)).isSome = true
  · obtain ⟨old, hold⟩ := Option.isSome_iff_exists.mp hs
    have hE : Pgvector.execStatement .overwrite s (Pgvector.pgRowOfDoc d) =
        .ok (s.map (fun x =>
          if x.id = (Pgvector.pgRowOfDoc d).id then Pgvector.pgRowOfDoc d
          else x), true) := by
      simp only [Pgvector.execStatement, hid, hs, if_pos]
    simp only [Pgvector.executeMany]
    rw [hE]
    dsimp only [Pgvector.executeMany]
    refine ⟨_, rfl, ?_⟩
    rw [← hid]
    exact lookupRow_map_replace s (Pgvector.pgRowOfDoc d) old (hid ▸ hold)
  · have hnone : Pgvector.lookupRow s (Sum.inl d.id) = none :=
      Option.not_isSome_iff_eq_none.mp (by simpa using hs)
    have hE : Pgvector.execStatement .overwrite s (Pgvector.pgRowOfDoc d) =
        .ok (s ++ [Pgvector.pgRowOfDoc d], true) := by
      simp only [Pgvector.execStatement, hid]
      rw [hnone]
      rfl
    simp only [Pgvector.executeMany]
    rw [hE]
    dsimp only [Pgvector.executeMany]
    refine ⟨_, rfl, ?_⟩
    rw [← hid]
    exact lookupRow_append_self s (Pgvector.pgRowOfDoc d) (hid ▸ hnone)

/-- An OVERWRITE write of a single document whose id exists in the
Azure index succeeds with count 1 and stores, under that id, the merge
of the old record with the incoming action. -/
theorem writeAzure_overwrite_merge (s : Azure.AzureState) (d : Doc)
    (old : Azure.AzureRecord)
    (hold : Azure.lookupRec s.index d.id = some old) :
    ∃ s', Azure.writeDocumentsAzure s [.doc d] .overwrite false =
        (s', .ok 1) ∧
      Azure.lookupRec s'.index d.id =
        some (Azure.mergeRecord old (Azure.defaultIndexMapping s d).2) := by
  have hframe := defaultIndexMapping_frame s d
  have hL : Azure.writeLoop s s.index .overwrite [BatchElem.doc d] =
      ((Azure.defaultIndexMapping s d).1,
        .ok [(Azure.defaultIndexMapping s d).2]) := by
    simp only [Azure.writeLoop]
    rw [hold]
  have hred : Azure.writeDocumentsAzure s [BatchElem.doc d] .overwrite false =
      (match Azure.writeLoop s s.index .overwrite [BatchElem.doc d] with
      | (s1, .error e2) => (s1, .error e2)
      | (s1, .ok toWrite) =>
        if toWrite = [] then (s1, .ok 0)
        else if false then (s1, .error .azureNativeError)
        else ({ s1 with
                index := Azure.mergeOrUploadDocuments s1.index toWrite },
              .ok toWrite.length)) := rfl
  rw [hred, hL]
  dsimp only
  rw [if_neg (by simp)]
  refine ⟨_, rfl, ?_⟩
  show Azure.lookupRec
    (Azure.mergeOrUploadDocuments (Azure.defaultIndexMapping s d).1.index
      [(Azure.defaultIndexMapping s d).2]) d.id = _
  rw [show Azure.mergeOrUploadDocuments
      (Azure.defaultIndexMapping s d).1.index
      [(Azure.defaultIndexMapping s d).2] =
    Azure.applyIndexAction (Azure.defaultIndexMapping s d).1.index
      (Azure.defaultIndexMapping s d).2 from rfl]
  rw [Azure.applyIndexAction, hframe.1, hframe.2.2.1, hold]
  rw [← hframe.2.2.1]
  exact lookupRec_map_merge s.index (Azure.defaultIndexMapping s d).2 old
    (by rw [hframe.2.2.1]; exact hold)

/-- `write_documents` of the Azure store on a batch that does not
start with a non-`Document` reduces to the check-then-convert loop
followed by the optional upload. -/
theorem writeAzure_red (s : Azure.AzureState) (bb : BatchElem)
    (bs : List BatchElem) (policy : DuplicatePolicy) (uploadFails : Bool)
    (hbb : bb ≠ BatchElem.notADoc) :
    Azure.writeDocumentsAzure s (bb :: bs) policy uploadFails =
      (match Azure.writeLoop s s.index policy (bb :: bs) with
      | (s1, .error e2) => (s1, .error e2)
      | (s1, .ok toWrite) =>
        if toWrite = [] then (s1, .ok 0)
        else if uploadFails then (s1, .error .azureNativeError)
        else ({ s1 with
                index := Azure.mergeOrUploadDocuments s1.index toWrite },
              .ok toWrite.length)) := by
  cases bb with
  | notADoc => exact absurd rfl hbb
  | doc d => rfl
  | docBadId m => rfl

/-- A pgvector write of a batch containing an ill-formed element
raises, whatever the position of that element. -/
theorem writePg_illFormed (s : Pgvector.Table) (batch : List BatchElem)
    (policy : DuplicatePolicy) (h : batch.any isIllFormed = true) :
    ∃ e, (Pgvector.writeDocumentsPg s batch policy).2 = .error e := by
  rcases List.any_eq_true.mp h with ⟨x, hx, hill⟩
  rcases batch with - | ⟨b, bs⟩
  · simp at hx
  · cases b with
    | notADoc => exact ⟨.valueError, rfl⟩
    | doc d =>
      rw [writePg_red s (.doc d) bs policy (by simp)]
      cases hF : Pgvector.fromHaystackToPgDocuments (BatchElem.doc d :: bs) with
      | error e2 => exact ⟨e2, rfl⟩
      | ok rows =>
        dsimp only
        cases x with
        | doc d2 => simp [isIllFormed] at hill
        | notADoc =>
          rw [fromHaystack_notADoc_mem (BatchElem.doc d :: bs) hx] at hF
          exact absurd hF (by simp)
        | docBadId n =>
          have hmem := fromHaystack_badId_mem (BatchElem.doc d :: bs) rows n hF hx
          obtain ⟨e2, he2⟩ := executeMany_badId
            (if policy = DuplicatePolicy.none then DuplicatePolicy.fail
              else policy) rows s ⟨Pgvector.badIdRow n, hmem, n, rfl⟩
          cases hR : Pgvector.executeMany
              (if policy = DuplicatePolicy.none then DuplicatePolicy.fail
                else policy) s rows with
          | mk txf r2 =>
            rw [hR] at he2
            cases r2 with
            | ok m => simp at he2
            | error e3 =>
              cases e3 with
              | integrityError => exact ⟨.duplicateDocumentError, rfl⟩
              | nativeError => exact ⟨.documentStoreError, rfl⟩
    | docBadId n0 =>
      rw [writePg_red s (.docBadId n0) bs policy (by simp)]
      cases hF : Pgvector.fromHaystackToPgDocuments
          (BatchElem.docBadId n0 :: bs) with
      | error e2 => exact ⟨e2, rfl⟩
      | ok rows =>
        dsimp only
        have hmem := fromHaystack_badId_mem (BatchElem.docBadId n0 :: bs)
          rows n0 hF (List.mem_cons_self _ _)
        obtain ⟨e2, he2⟩ := executeMany_badId
          (if policy = DuplicatePolicy.none then DuplicatePolicy.fail
            else policy) rows s ⟨Pgvector.badIdRow n0, hmem, n0, rfl⟩
        cases hR : Pgvector.executeMany
            (if policy = DuplicatePolicy.none then DuplicatePolicy.fail
              else policy) s rows with
        | mk txf r2 =>
          rw [hR] at he2
          cases r2 with
          | ok m => simp at he2
          | error e3 =>
            cases e3 with
            | integrityError => exact ⟨.duplicateDocumentError, rfl⟩
            | nativeError => exact ⟨.documentStoreError, rfl⟩

/-- An Azure write of a batch containing an ill-formed element raises,
whatever the position of that element. -/
theorem writeAzure_illFormed (s : Azure.AzureState) (batch : List BatchElem)
    (policy : DuplicatePolicy) (uploadFails : Bool)
    (h : batch.any isIllFormed = true) :
    ∃ e, (Azure.writeDocumentsAzure s batch policy uploadFails).2 =
      .error e := by
  rcases batch with - | ⟨b, bs⟩
  · simp at h
  · have main : ∀ bb : BatchElem, bb ≠ BatchElem.notADoc →
        (bb :: bs).any isIllFormed = true →
        ∃ e, (Azure.writeDocumentsAzure s (bb :: bs) policy
          uploadFails).2 = .error e := by
      intro bb hbb hany
      rw [writeAzure_red s bb bs policy uploadFails hbb]
      obtain ⟨e, he⟩ := writeLoop_illFormed (bb :: bs) s s.index policy hany
      cases hL : Azure.writeLoop s s.index policy (bb :: bs) with
      | mk s1 r1 =>
        rw [hL] at he
        cases r1 with
        | ok l => simp at he
        | error e2 => exact ⟨e2, rfl⟩
    cases b with
    | notADoc => exact ⟨.valueError, rfl⟩
    | doc d => exact main (.doc d) (by simp) h
    | docBadId m => exact main (.docBadId m) (by simp) h

/-- C2 counterexample: the compiled query text is NOT identical for any
two choices of the user-supplied values.  Two different id lists give
`delete_documents` two different statement texts (the ids are spliced
into the text), and two different query embeddings give
`_embedding_retrieval` two different statement texts (the rendered
vector is inlined in the score expression). -/
theorem c2_counterexample :
    Pgvector.embeddingRetrievalQueryText "public" "haystack_documents"
        .cosineSimilarity ["1.0"] "" 10 ≠
      Pgvector.embeddingRetrievalQueryText "public" "haystack_documents"
        .cosineSimilarity ["2.0"] "" 10 ∧
    SqlText.deleteDocumentsQuery "public" "haystack_documents" ["a"] ≠
      SqlText.deleteDocumentsQuery "public" "haystack_documents" ["b"] := by
  constructor <;> decide

/-- C2 (amended): filter values and keyword query strings are passed
only as parameters — the keyword search statement text is identical
for any two query strings, and the query string travels at the head of
the parameter tuple — but the ids handed to `delete_documents` and the
query embedding of `_embedding_retrieval` are interpolated into the
statement text (as the counterexample shows). -/
theorem c2_keyword_query_parameterized (schemaName tableName language : String)
    (q q' whereClause : String) (whereParams : List String) (topK : Nat) :
    (SqlText.keywordRetrievalCall schemaName tableName language q
        whereClause whereParams topK).text =
      (SqlText.keywordRetrievalCall schemaName tableName language q'
        whereClause whereParams topK).text ∧
    (SqlText.keywordRetrievalCall schemaName tableName language q
        whereClause whereParams topK).params = q :: whereParams :=
  ⟨rfl, rfl⟩

/-- C5 counterexample: a mapping that lacks both the `operator` key and
the `logical_operator` key does not necessarily fail.  The pgvector
store accepts `[("conditions", _)]` (it checks for `conditions`, not
`logical_operator`) and issues the query, and the Azure store performs
no filter validation at all and answers the backend search normally. -/
theorem c5_counterexample :
    resultIsOk (Pgvector.filterDocumentsQueryPg "public" "haystack_documents"
        (some [("conditions", "x")])) = true ∧
    Azure.filterDocumentsAzure ⟨[], some (Azure.dummyVector 2), 2⟩
        (some [("field", "1")]) = .ok [] := by
  constructor <;> rfl

/-- C5 (amended): in the pgvector store a non-empty filter mapping
lacking both the `operator` and the `conditions` key raises a
`ValueError`-class invalid-filter-syntax error, and the query is never
issued; the Azure store does not validate filters at all. -/
theorem c5_pg_malformed_filter_rejected (schemaName tableName : String)
    (f : Pgvector.FilterDict) (hne : f.isEmpty = false)
    (hop : Pgvector.hasKey f "operator" = false)
    (hcond : Pgvector.hasKey f "conditions" = false) :
    Pgvector.filterDocumentsQueryPg schemaName tableName (some f) =
      .error .valueError := by
  simp [Pgvector.filterDocumentsQueryPg, hne, hop, hcond]

/-- Witness for `c5_pg_malformed_filter_rejected` at a concrete
malformed mapping. -/
theorem c5_pg_malformed_filter_rejected_witness :
    (([("field", "x")] : Pgvector.FilterDict).isEmpty = false) ∧
    Pgvector.filterDocumentsQueryPg "public" "haystack_documents"
        (some [("field", "x")]) = .error .valueError :=
  ⟨by decide,
   c5_pg_malformed_filter_rejected "public" "haystack_documents"
     [("field", "x")] (by decide) (by decide) (by decide)⟩

/-- C6: the sentinel translation on read depends on the
`_dummy_vector` instance attribute, which is only assigned while
writing a document without an embedding.  In a session that has not
performed such a write (first conjunct, `dummyVec = none`), reading a
document that was stored without an embedding raises `AttributeError`
instead of returning the document; once the attribute is set (second
conjunct), the sentinel is translated back to "no embedding". -/
theorem c6_dummy_vector_read_bug :
    Azure.filterDocumentsAzure
        ⟨[⟨"d1", some "text", Azure.dummyVector 2, []⟩], none, 2⟩ none =
      .error .attributeError ∧
    Azure.filterDocumentsAzure
        ⟨[⟨"d1", some "text", Azure.dummyVector 2, []⟩],
          some (Azure.dummyVector 2), 2⟩ none =
      .ok [{ id := "d1", content := some "text", embedding := none,
             dataframe := none, meta := [], blob := none }] := by
  constructor <;> rfl

/-- C3 counterexample: under OVERWRITE the Azure store does not replace
the stored document wholesale.  A stored record with metadata field
`lang` is "overwritten" by an incoming document carrying no metadata,
yet the final record still carries `("lang", "en")`: the write is a
merge-or-upload, so a field absent from the incoming document is
retained, not removed. -/
theorem c3_counterexample :
    (Azure.writeDocumentsAzure
        ⟨[⟨"1", some "old", [1], [("lang", "en")]⟩], none, 1⟩
        [.doc { id := "1", content := some "new", embedding := some [2],
                dataframe := none, meta := [], blob := none }]
        .overwrite false).1.index =
      [⟨"1", some "new", [2], [("lang", "en")]⟩] ∧
    (Azure.writeDocumentsAzure
        ⟨[⟨"1", some "old", [1], [("lang", "en")]⟩], none, 1⟩
        [.doc { id := "1", content := some "new", embedding := some [2],
                dataframe := none, meta := [], blob := none }]
        .overwrite false).2 = .ok 1 := by
  constructor <;> rfl

/-- PostgreSQL's null-as-largest comparison is total. -/
theorem pgNullsHighLe_total (a b : Option Rat) :
    Pgvector.pgNullsHighLe a b = true ∨ Pgvector.pgNullsHighLe b a = true := by
  cases a with
  | none => cases b <;> simp [Pgvector.pgNullsHighLe]
  | some x =>
    cases b with
    | none => simp [Pgvector.pgNullsHighLe]
    | some y => simpa [Pgvector.pgNullsHighLe] using le_total x y

/-- PostgreSQL's null-as-largest comparison is transitive. -/
theorem pgNullsHighLe_trans (a b c : Option Rat)
    (h1 : Pgvector.pgNullsHighLe a b = true)
    (h2 : Pgvector.pgNullsHighLe b c = true) :
    Pgvector.pgNullsHighLe a c = true := by
  cases a <;> cases b <;> cases c <;>
    simp_all [Pgvector.pgNullsHighLe] <;> exact le_trans h1 h2

/-- Insertion sort by the ascending null-as-largest order on the
second component sorts. -/
theorem sortedPairsLeO (l : List (String × Option Rat)) :
    List.Sorted (fun a b : String × Option Rat =>
        Pgvector.pgNullsHighLe a.2 b.2 = true)
      (l.insertionSort (fun a b => Pgvector.pgNullsHighLe a.2 b.2 = true)) := by
  haveI : IsTotal (String × Option Rat)
      (fun a b => Pgvector.pgNullsHighLe a.2 b.2 = true) :=
    ⟨fun a b => pgNullsHighLe_total a.2 b.2⟩
  haveI : IsTrans (String × Option Rat)
      (fun a b => Pgvector.pgNullsHighLe a.2 b.2 = true) :=
    ⟨fun a b c h1 h2 => pgNullsHighLe_trans a.2 b.2 c.2 h1 h2⟩
  exact List.sorted_insertionSort _ _

/-- Insertion sort by the descending null-as-largest order on the
second component sorts. -/
theorem sortedPairsGeO (l : List (String × Option Rat)) :
    List.Sorted (fun a b : String × Option Rat =>
        Pgvector.pgNullsHighLe b.2 a.2 = true)
      (l.insertionSort (fun a b => Pgvector.pgNullsHighLe b.2 a.2 = true)) := by
  haveI : IsTotal (String × Option Rat)
      (fun a b : String × Option Rat =>
        Pgvector.pgNullsHighLe b.2 a.2 = true) :=
    ⟨fun a b => pgNullsHighLe_total b.2 a.2⟩
  haveI : IsTrans (String × Option Rat)
      (fun a b : String × Option Rat =>
        Pgvector.pgNullsHighLe b.2 a.2 = true) :=
    ⟨fun a b c h1 h2 => pgNullsHighLe_trans c.2 b.2 a.2 h2 h1⟩
  exact List.sorted_insertionSort _ _

/-- C7 counterexample: the vector search scans documents stored
without an embedding too (the query has no `IS NOT NULL` filter),
their score is SQL `NULL`, and PostgreSQL sorts nulls first under
`DESC`.  Under `cosine_similarity` an embedding-less document is
therefore returned FIRST, ahead of a perfectly matching scored
document (native `<=>` value 0, score `1 - 0 = 1`): the results are
not sorted by score descending as the claim states. -/
theorem c7_counterexample :
    (Pgvector.embeddingRetrievalRanked .cosineSimilarity
        [("no-embedding", none), ("match", some 0)] 10).map Prod.fst =
      ["no-embedding", "match"] ∧
    (Pgvector.embeddingRetrievalRanked .cosineSimilarity
        [("no-embedding", none), ("match", some 0)] 10).map Prod.snd =
      [none, some 1] := by
  constructor
  · rfl
  · have h0 : (Pgvector.embeddingRetrievalRanked .cosineSimilarity
        [("no-embedding", none), ("match", some 0)] 10).map Prod.snd =
      [none, some ((1 : Rat) - 0)] := rfl
    rw [h0]
    norm_num

/-- C7 (amended): the emitted query orders the whole result by the
chosen direction over PostgreSQL's nulls-are-largest comparison, so
the scored documents among the results follow the metric's convention
— descending for `cosine_similarity` / `inner_product`, ascending for
`l2_distance` — and the score returned for every embedded document is
the metric's convention value itself (the sign adjustments
`1 - (<=>)` and `(<#>) * -1` cancel the backend's internal signing,
whatever row values the operators produce); but rows stored without an
embedding receive a `NULL` score and are sorted ahead of every scored
match under the descending metrics (the counterexample), behind them
under `l2_distance`. -/
theorem c7_vector_search_ordering (vf : Pgvector.VectorFunction)
    (rows : List (String × Option Rat)) (topK : Nat) :
    List.Sorted (Pgvector.pgResultOrder vf)
      ((Pgvector.embeddingRetrievalRanked vf rows topK).map Prod.snd) ∧
    List.Sorted (Pgvector.metricOrder vf)
      ((Pgvector.embeddingRetrievalRanked vf rows topK).filterMap
        Prod.snd) ∧
    (∀ v : Rat,
      Pgvector.scoreExpr vf (Pgvector.nativeOperatorValue vf v) = v) := by
  refine ⟨?_, ?_, ?_⟩
  · cases vf with
    | l2Distance =>
      have hs := sortedPairsLeO
        (rows.map (fun r => (r.1, r.2.map (Pgvector.scoreExpr .l2Distance))))
      show List.Sorted
        (fun a b : Option Rat => Pgvector.pgNullsHighLe a b = true) _
      exact (hs.sublist (List.take_sublist topK _)).map Prod.snd
        (fun a b hab => hab)
    | cosineSimilarity =>
      have hs := sortedPairsGeO
        (rows.map (fun r =>
          (r.1, r.2.map (Pgvector.scoreExpr .cosineSimilarity))))
      show List.Sorted
        (fun a b : Option Rat => Pgvector.pgNullsHighLe b a = true) _
      exact (hs.sublist (List.take_sublist topK _)).map Prod.snd
        (fun a b hab => hab)
    | innerProduct =>
      have hs := sortedPairsGeO
        (rows.map (fun r =>
          (r.1, r.2.map (Pgvector.scoreExpr .innerProduct))))
      show List.Sorted
        (fun a b : Option Rat => Pgvector.pgNullsHighLe b a = true) _
      exact (hs.sublist (List.take_sublist topK _)).map Prod.snd
        (fun a b hab => hab)
  · cases vf with
    | l2Distance =>
      have hs := sortedPairsLeO
        (rows.map (fun r => (r.1, r.2.map (Pgvector.scoreExpr .l2Distance))))
      have hres := hs.sublist (List.take_sublist topK _)
      show List.Sorted (fun a b : Rat => a ≤ b) _
      refine List.Pairwise.filterMap Prod.snd ?_ hres
      intro a b hab x hx y hy
      rw [show a.2 = some x from hx, show b.2 = some y from hy] at hab
      simpa [Pgvector.pgNullsHighLe] using hab
    | cosineSimilarity =>
      have hs := sortedPairsGeO
        (rows.map (fun r =>
          (r.1, r.2.map (Pgvector.scoreExpr .cosineSimilarity))))
      have hres := hs.sublist (List.take_sublist topK _)
      show List.Sorted (fun a b : Rat => b ≤ a) _
      refine List.Pairwise.filterMap Prod.snd ?_ hres
      intro a b hab x hx y hy
      rw [show a.2 = some x from hx, show b.2 = some y from hy] at hab
      simpa [Pgvector.pgNullsHighLe] using hab
    | innerProduct =>
      have hs := sortedPairsGeO
        (rows.map (fun r =>
          (r.1, r.2.map (Pgvector.scoreExpr .innerProduct))))
      have hres := hs.sublist (List.take_sublist topK _)
      show List.Sorted (fun a b : Rat => b ≤ a) _
      refine List.Pairwise.filterMap Prod.snd ?_ hres
      intro a b hab x hx y hy
      rw [show a.2 = some x from hx, show b.2 = some y from hy] at hab
      simpa [Pgvector.pgNullsHighLe] using hab
  · intro v
    cases vf with
    | cosineSimilarity =>
      simp only [Pgvector.scoreExpr, Pgvector.nativeOperatorValue]; ring
    | innerProduct =>
      simp only [Pgvector.scoreExpr, Pgvector.nativeOperatorValue]; ring
    | l2Distance => rfl

/-- After any `_handle_hnsw` call, the configured index exists. -/
theorem handleHnsw_contains (cfg : Pgvector.HnswConfig) (s : Pgvector.HnswState) :
    ((Pgvector.handleHnsw cfg s).1.indexes.contains cfg.indexName) = true := by
  unfold Pgvector.handleHnsw
  cases cfg.efSearch <;> dsimp only <;> split <;> simp_all

/-- `_handle_hnsw` leaves the session `ef_search` setting compatible
with the configuration: when one is configured, it is set afterwards. -/
theorem handleHnsw_efSetting (cfg : Pgvector.HnswConfig) (s : Pgvector.HnswState)
    (v : Nat) (hv : cfg.efSearch = some v) :
    ((Pgvector.handleHnsw cfg s).1.efSearchSetting) = some v := by
  unfold Pgvector.handleHnsw
  rw [hv]
  dsimp only
  split <;> simp

/-- A `_handle_hnsw` call on a state where the configured index already
exists and the session setting already matches, with the recreate flag
off, changes nothing, builds nothing, and logs the warning. -/
theorem handleHnsw_second (cfg : Pgvector.HnswConfig) (s1 : Pgvector.HnswState)
    (hrec : cfg.recreateIfExists = false)
    (hmem : s1.indexes.contains cfg.indexName = true)
    (hef : ∀ v, cfg.efSearch = some v → s1.efSearchSetting = some v) :
    Pgvector.handleHnsw cfg s1 = (s1, ⟨0, 1⟩) := by
  have hmem' : cfg.indexName ∈ s1.indexes := by simpa using hmem
  unfold Pgvector.handleHnsw
  cases hce : cfg.efSearch with
  | none => simp [hmem', hrec]
  | some v =>
    have h1 := hef v hce
    have : { s1 with efSearchSetting := some v } = s1 := by
      cases s1; simp_all
    simp [this, hmem', hrec]

/-- C8: with the recreate flag off, `_handle_hnsw` is idempotent —
across two consecutive calls the index is built at most once, the
second call performs no build and leaves the existing indexes as they
are while logging the staleness warning, and if the configured index
already existed, the first call builds nothing either. -/
theorem c8_hnsw_ensure_index_idempotent (cfg : Pgvector.HnswConfig)
    (s : Pgvector.HnswState) (hrec : cfg.recreateIfExists = false) :
    (Pgvector.handleHnsw cfg (Pgvector.handleHnsw cfg s).1).1 =
      (Pgvector.handleHnsw cfg s).1 ∧
    (Pgvector.handleHnsw cfg (Pgvector.handleHnsw cfg s).1).2 = ⟨0, 1⟩ ∧
    (Pgvector.handleHnsw cfg s).2.builds +
      (Pgvector.handleHnsw cfg (Pgvector.handleHnsw cfg s).1).2.builds ≤ 1 ∧
    (s.indexes.contains cfg.indexName = true →
      (Pgvector.handleHnsw cfg s).2.builds = 0) := by
  have hsecond := handleHnsw_second cfg (Pgvector.handleHnsw cfg s).1 hrec
    (handleHnsw_contains cfg s) (fun v hv => handleHnsw_efSetting cfg s v hv)
  refine ⟨by rw [hsecond], by rw [hsecond], ?_, ?_⟩
  · rw [hsecond]
    have : (Pgvector.handleHnsw cfg s).2.builds ≤ 1 := by
      unfold Pgvector.handleHnsw
      cases cfg.efSearch <;> dsimp only <;> split <;> simp
    simpa using this
  · intro hmem
    unfold Pgvector.handleHnsw
    cases hce : cfg.efSearch <;> dsimp only <;> split <;> simp_all

/-- Witness for `c8_hnsw_ensure_index_idempotent` at a concrete
configuration and state where the index already exists. -/
theorem c8_hnsw_ensure_index_idempotent_witness :
    ((⟨"haystack_hnsw_index", false, some 5⟩ :
        Pgvector.HnswConfig).recreateIfExists = false) ∧
    (Pgvector.handleHnsw ⟨"haystack_hnsw_index", false, some 5⟩
        (Pgvector.handleHnsw ⟨"haystack_hnsw_index", false, some 5⟩
          ⟨["haystack_hnsw_index"], none⟩).1).2 = ⟨0, 1⟩ ∧
    (Pgvector.handleHnsw ⟨"haystack_hnsw_index", false, some 5⟩
        ⟨["haystack_hnsw_index"], none⟩).2.builds = 0 :=
  ⟨rfl,
   (c8_hnsw_ensure_index_idempotent ⟨"haystack_hnsw_index", false, some 5⟩
      ⟨["haystack_hnsw_index"], none⟩ rfl).2.1,
   (c8_hnsw_ensure_index_idempotent ⟨"haystack_hnsw_index", false, some 5⟩
      ⟨["haystack_hnsw_index"], none⟩ rfl).2.2.2 (by decide)⟩

/-- C10: the dynamic connected-method wrapper restores `_connection`
to its pre-call value on every exit path — connection failure, schema
initialisation failure, write failure, and normal return — leaves all
other configuration attributes untouched, and modifies only the
one-shot `_schema_is_initialized` flag (set to true whenever a
connection was opened, left as it was if connecting itself failed). -/
theorem c10_connected_wrapper_frame (w : Pgvector.PgWorld)
    (connectFails initFails : Bool) (batch : List BatchElem)
    (policy : DuplicatePolicy) :
    (Pgvector.connectedWriteDocuments w connectFails initFails batch
        policy).1.attrs.connection = w.attrs.connection ∧
    (Pgvector.connectedWriteDocuments w connectFails initFails batch
        policy).1.attrs.config = w.attrs.config ∧
    (Pgvector.connectedWriteDocuments w connectFails initFails batch
        policy).1.attrs.schemaIsInitialized =
      (if connectFails then w.attrs.schemaIsInitialized else true) := by
  unfold Pgvector.connectedWriteDocuments
  cases connectFails <;> cases initFails <;>
    cases hs : w.attrs.schemaIsInitialized <;>
      simp [Pgvector.initSchema, hs]

/-- Replacing the row stored under one id leaves every other id's
lookup unchanged. -/
theorem lookupRow_map_replace_other (t : Pgvector.Table)
    (r : Pgvector.PgRow) (i : Pgvector.PgId) (h : r.id ≠ i) :
    Pgvector.lookupRow (t.map (fun x => if x.id = r.id then r else x)) i =
      Pgvector.lookupRow t i := by
  induction t with
  | nil => rfl
  | cons x xs ih =>
    by_cases hx : x.id = r.id
    · have hfx : (if x.id = r.id then r else x) = r := if_pos hx
      have h2 : ¬ (x.id = i) := by rw [hx]; exact h
      simp only [Pgvector.lookupRow, List.map_cons, List.find?, hfx, h, h2]
      exact ih
    · have hfx : (if x.id = r.id then r else x) = x := if_neg hx
      by_cases hxi : x.id = i
      · simp only [Pgvector.lookupRow, List.map_cons, List.find?, hfx]
        simp [hxi]
      · simp only [Pgvector.lookupRow, List.map_cons, List.find?, hfx, hxi]
        exact ih

/-- Appending a row leaves every other id's lookup unchanged. -/
theorem lookupRow_append_other (t : Pgvector.Table) (r : Pgvector.PgRow)
    (i : Pgvector.PgId) (h : r.id ≠ i) :
    Pgvector.lookupRow (t ++ [r]) i = Pgvector.lookupRow t i := by
  induction t with
  | nil => simp [Pgvector.lookupRow, List.find?, h]
  | cons x xs ih =>
    by_cases hxi : x.id = i
    · simp [Pgvector.lookupRow, List.find?, hxi]
    · simp only [Pgvector.lookupRow, List.cons_append, List.find?, hxi]
      exact ih

/-- A successful statement leaves the lookup of every id other than
its own unchanged. -/
theorem execStatement_preserve (policy : DuplicatePolicy)
    (tx tx' : Pgvector.Table) (r : Pgvector.PgRow) (ret : Bool)
    (i : Pgvector.PgId)
    (hE : Pgvector.execStatement policy tx r = .ok (tx', ret))
    (hne : r.id ≠ i) :
    Pgvector.lookupRow tx' i = Pgvector.lookupRow tx i := by
  unfold Pgvector.execStatement at hE
  cases hid : r.id with
  | inr m => rw [hid] at hE; simp at hE
  | inl idStr =>
    rw [hid] at hE
    dsimp only at hE
    by_cases hs : (Pgvector.lookupRow tx (Sum.inl idStr)).isSome = true
    · rw [if_pos hs] at hE
      cases policy with
      | skip =>
        simp only [Except.ok.injEq, Prod.mk.injEq] at hE
        rw [← hE.1]
      | overwrite =>
        simp only [Except.ok.injEq, Prod.mk.injEq] at hE
        rw [← hE.1]
        have hrepl := lookupRow_map_replace_other tx r i hne
        rw [hid] at hrepl
        exact hrepl
      | fail => simp at hE
      | none => simp at hE
    · rw [if_neg hs] at hE
      simp only [Except.ok.injEq, Prod.mk.injEq] at hE
      rw [← hE.1]
      exact lookupRow_append_other tx r i hne

/-- A completed `executemany` leaves the lookup of every id that none
of its rows carries unchanged. -/
theorem executeMany_preserve (policy : DuplicatePolicy)
    (rows : List Pgvector.PgRow) (tx txf : Pgvector.Table) (n : Nat)
    (i : Pgvector.PgId)
    (h : Pgvector.executeMany policy tx rows = (txf, .ok n))
    (hall : ∀ r ∈ rows, r.id ≠ i) :
    Pgvector.lookupRow txf i = Pgvector.lookupRow tx i := by
  induction rows generalizing tx txf n with
  | nil => simp [Pgvector.executeMany] at h; rw [h.1]
  | cons r rs ih =>
    simp only [Pgvector.executeMany] at h
    cases hE : Pgvector.execStatement policy tx r with
    | error e => rw [hE] at h; simp at h
    | ok p =>
      obtain ⟨tx', ret⟩ := p
      rw [hE] at h
      dsimp only at h
      cases hR : Pgvector.executeMany policy tx' rs with
      | mk txf2 r2 =>
        rw [hR] at h
        cases r2 with
        | error e => simp at h
        | ok m =>
          simp only [Except.ok.injEq, Prod.mk.injEq] at h
          rw [← h.1]
          rw [ih tx' txf2 m hR (fun r2 hr2 => hall r2 (List.mem_cons_of_mem r hr2))]
          exact execStatement_preserve policy tx tx' r ret i hE
            (hall r (List.mem_cons_self r rs))

/-- A successful OVERWRITE statement leaves its own row stored under
its id, whether it replaced or inserted. -/
theorem execStatement_overwrite_sets (tx tx' : Pgvector.Table)
    (r : Pgvector.PgRow) (ret : Bool)
    (hE : Pgvector.execStatement .overwrite tx r = .ok (tx', ret)) :
    Pgvector.lookupRow tx' r.id = some r := by
  unfold Pgvector.execStatement at hE
  cases hid : r.id with
  | inr m => rw [hid] at hE; simp at hE
  | inl idStr =>
    rw [hid] at hE
    dsimp only at hE
    by_cases hs : (Pgvector.lookupRow tx (Sum.inl idStr)).isSome = true
    · rw [if_pos hs] at hE
      simp only [Except.ok.injEq, Prod.mk.injEq] at hE
      obtain ⟨old, hold⟩ := Option.isSome_iff_exists.mp hs
      rw [← hE.1]
      have hrepl := lookupRow_map_replace tx r old (by rw [hid]; exact hold)
      rw [hid] at hrepl
      exact hrepl
    · rw [if_neg hs] at hE
      simp only [Except.ok.injEq, Prod.mk.injEq] at hE
      have hnone : Pgvector.lookupRow tx (Sum.inl idStr) = none :=
        Option.not_isSome_iff_eq_none.mp (by simpa using hs)
      rw [← hE.1]
      have happ := lookupRow_append_self tx r (by rw [hid]; exact hnone)
      rw [hid] at happ
      exact happ

/-- An OVERWRITE statement on a row with a string id always succeeds
and returns a `RETURNING` row. -/
theorem execStatement_overwrite_ok (tx : Pgvector.Table)
    (r : Pgvector.PgRow) (idStr : String) (hid : r.id = Sum.inl idStr) :
    ∃ tx', Pgvector.execStatement .overwrite tx r = .ok (tx', true) := by
  unfold Pgvector.execStatement
  rw [hid]
  dsimp only
  by_cases hs : (Pgvector.lookupRow tx (Sum.inl idStr)).isSome = true
  · rw [if_pos hs]
    exact ⟨_, rfl⟩
  · rw [if_neg hs]
    exact ⟨_, rfl⟩

/-- An OVERWRITE `executemany` over rows with string ids always
completes normally. -/
theorem executeMany_overwrite_ok (rows : List Pgvector.PgRow)
    (tx : Pgvector.Table)
    (hids : ∀ r ∈ rows, ∃ idStr, r.id = Sum.inl idStr) :
    ∃ txf n, Pgvector.executeMany .overwrite tx rows = (txf, .ok n) := by
  induction rows generalizing tx with
  | nil => exact ⟨tx, 0, rfl⟩
  | cons r rs ih =>
    obtain ⟨idStr, hid⟩ := hids r (List.mem_cons_self r rs)
    obtain ⟨tx', hE⟩ := execStatement_overwrite_ok tx r idStr hid
    obtain ⟨txf, n, hR⟩ := ih tx'
      (fun r2 hr2 => hids r2 (List.mem_cons_of_mem r hr2))
    refine ⟨txf, 1 + n, ?_⟩
    simp only [Pgvector.executeMany]
    rw [hE]
    dsimp only
    simp only [List.append_eq]
    rw [hR]
    simp

/-- After a completed OVERWRITE `executemany`, every row that is the
last of its id in the batch is stored under its id exactly as given. -/
theorem executeMany_overwrite_last (pre : List Pgvector.PgRow)
    (r : Pgvector.PgRow) (post : List Pgvector.PgRow)
    (tx txf : Pgvector.Table) (n : Nat)
    (h : Pgvector.executeMany .overwrite tx (pre ++ r :: post) =
      (txf, .ok n))
    (hpost : ∀ r2 ∈ post, r2.id ≠ r.id) :
    Pgvector.lookupRow txf r.id = some r := by
  induction pre generalizing tx txf n with
  | nil =>
    simp only [List.nil_append, Pgvector.executeMany] at h
    cases hE : Pgvector.execStatement .overwrite tx r with
    | error e => rw [hE] at h; simp at h
    | ok p =>
      obtain ⟨tx1, ret⟩ := p
      rw [hE] at h
      dsimp only at h
      cases hR : Pgvector.executeMany .overwrite tx1 post with
      | mk txf2 r2 =>
        rw [hR] at h
        cases r2 with
        | error e => simp at h
        | ok m =>
          simp only [Except.ok.injEq, Prod.mk.injEq] at h
          rw [← h.1]
          rw [executeMany_preserve .overwrite post tx1 txf2 m r.id hR hpost]
          exact execStatement_overwrite_sets tx tx1 r ret hE
  | cons r1 pre1 ih =>
    simp only [List.cons_append, Pgvector.executeMany] at h
    cases hE : Pgvector.execStatement .overwrite tx r1 with
    | error e => rw [hE] at h; simp at h
    | ok p =>
      obtain ⟨tx1, ret⟩ := p
      rw [hE] at h
      dsimp only at h
      simp only [List.append_eq] at h
      cases hR : Pgvector.executeMany .overwrite tx1 (pre1 ++ r :: post) with
      | mk txf2 r2 =>
        rw [hR] at h
        cases r2 with
        | error e => simp at h
        | ok m =>
          simp only [Except.ok.injEq, Prod.mk.injEq] at h
          rw [← h.1]
          exact ih tx1 txf2 m hR

/-- A record found before an append is still found after it. -/
theorem lookupRec_append_some (t l : List Azure.AzureRecord) (i : String)
    (x : Azure.AzureRecord) (h : Azure.lookupRec t i = some x) :
    Azure.lookupRec (t ++ l) i = some x := by
  induction t with
  | nil => simp [Azure.lookupRec, List.find?] at h
  | cons y ys ih =>
    by_cases hy : y.id = i
    · simp only [Azure.lookupRec, List.find?, hy] at h ⊢
      simpa using h
    · simp only [Azure.lookupRec, List.cons_append, List.find?, hy] at h ⊢
      exact ih h

/-- Merging into the record under one key leaves every other key's
lookup unchanged. -/
theorem lookupRec_map_merge_other (t : List Azure.AzureRecord)
    (a : Azure.AzureIndexDoc) (i : String) (h : i ≠ a.id) :
    Azure.lookupRec
        (t.map (fun r => if r.id = a.id then Azure.mergeRecord r a else r))
        i = Azure.lookupRec t i := by
  induction t with
  | nil => rfl
  | cons x xs ih =>
    by_cases hx : x.id = a.id
    · have hfx : (if x.id = a.id then Azure.mergeRecord x a else x) =
        Azure.mergeRecord x a := if_pos hx
      have h2 : ¬ ((Azure.mergeRecord x a).id = i) := by
        rw [mergeRecord_id, hx]
        exact fun hEq => h hEq.symm
      have h3 : ¬ (x.id = i) := by
        rw [hx]
        exact fun hEq => h hEq.symm
      simp only [Azure.lookupRec, List.map_cons, List.find?, hfx, h2, h3]
      exact ih
    · have hfx : (if x.id = a.id then Azure.mergeRecord x a else x) = x :=
        if_neg hx
      by_cases hxi : x.id = i
      · simp only [Azure.lookupRec, List.map_cons, List.find?, hfx]
        simp [hxi]
      · simp only [Azure.lookupRec, List.map_cons, List.find?, hfx, hxi]
        exact ih

/-- One `mergeOrUpload` action cannot erase a stored metadata field
whose key it does not carry: the record under any id keeps such a
field. -/
theorem applyIndexAction_retain (t : List Azure.AzureRecord)
    (a : Azure.AzureIndexDoc) (i : String) (old : Azure.AzureRecord)
    (k v : String) (h : Azure.lookupRec t i = some old)
    (hkv : (k, v) ∈ old.meta)
    (hk : (a.meta.map Prod.fst).contains k = false) :
    ∃ rec, Azure.lookupRec (Azure.applyIndexAction t a) i = some rec ∧
      (k, v) ∈ rec.meta := by
  unfold Azure.applyIndexAction
  cases hla : Azure.lookupRec t a.id with
  | none => exact ⟨old, lookupRec_append_some t _ i old h, hkv⟩
  | some oldA =>
    by_cases hi : i = a.id
    · subst hi
      have hOld : oldA = old := by rw [hla] at h; exact (Option.some.injEq _ _).mp h
      subst hOld
      exact ⟨Azure.mergeRecord oldA a, lookupRec_map_merge t a oldA hla,
        mergeRecord_meta_retained oldA a k v hkv hk⟩
    · rw [lookupRec_map_merge_other t a i hi]
      exact ⟨old, h, hkv⟩

/-- A whole `merge_or_upload_documents` batch of actions none of which
carries a given metadata key retains every stored field under that
key. -/
theorem mergeOrUpload_retain (batch : List Azure.AzureIndexDoc)
    (t : List Azure.AzureRecord) (i : String) (old : Azure.AzureRecord)
    (k v : String) (h : Azure.lookupRec t i = some old)
    (hkv : (k, v) ∈ old.meta)
    (hall : ∀ a ∈ batch, (a.meta.map Prod.fst).contains k = false) :
    ∃ rec, Azure.lookupRec (Azure.mergeOrUploadDocuments t batch) i =
      some rec ∧ (k, v) ∈ rec.meta := by
  induction batch generalizing t old with
  | nil => exact ⟨old, h, hkv⟩
  | cons a rest ih =>
    obtain ⟨rec1, h1, hkv1⟩ := applyIndexAction_retain t a i old k v h hkv
      (hall a (List.mem_cons_self a rest))
    exact ih (Azure.applyIndexAction t a) rec1 h1 hkv1
      (fun a2 ha2 => hall a2 (List.mem_cons_of_mem a ha2))

/-- The Azure write loop under OVERWRITE on well-formed documents
always completes, accumulating one action per document, each carrying
its document's metadata. -/
theorem writeLoop_overwrite_ok (docs : List Doc) (s : Azure.AzureState)
    (index : List Azure.AzureRecord) :
    ∃ s1 l, Azure.writeLoop s index .overwrite (docs.map .doc) =
        (s1, .ok l) ∧
      ∀ a ∈ l, ∃ d ∈ docs, a.meta = d.meta := by
  induction docs generalizing s with
  | nil => exact ⟨s, [], rfl, by simp⟩
  | cons d0 ds ih =>
    obtain ⟨s1, l, hL, hmeta⟩ := ih (Azure.defaultIndexMapping s d0).1
    refine ⟨s1, (Azure.defaultIndexMapping s d0).2 :: l, ?_, ?_⟩
    · simp only [List.map_cons, Azure.writeLoop]
      cases hl : Azure.lookupRec index d0.id with
      | some old =>
        dsimp only
        rw [hL]
      | none =>
        dsimp only
        rw [hL]
    · intro a ha
      rcases List.mem_cons.mp ha with rfl | ha2
      · exact ⟨d0, List.mem_cons_self d0 ds,
          (defaultIndexMapping_frame s d0).2.2.2⟩
      · obtain ⟨d, hd, hmeta2⟩ := hmeta a ha2
        exact ⟨d, List.mem_cons_of_mem d0 hd, hmeta2⟩

/-- C1 counterexample: a backend execution error during the Azure
upload surfaces as the backend-native exception, not as a domain
error: `merge_or_upload_documents` sits in no try/except, so the
claim's "surfaces a domain error rather than a backend-native
exception" fails on this store. -/
theorem c1_counterexample :
    Azure.writeDocumentsAzure ⟨[], none, 2⟩ [.doc sampleDoc] .fail true =
      (⟨[], none, 2⟩, .error .azureNativeError) := rfl

/-- C1 (amended): under FAIL with an already-existing id (a) the
pgvector write raises `DuplicateDocumentError` and commits nothing,
(b) every pgvector write error leaves the table unchanged and is a
domain error (`ValueError` / `AttributeError` /
`DuplicateDocumentError` / `DocumentStoreError`), never a raw driver
error, and (c) the Azure write raises `DuplicateDocumentError` before
its upload call, leaving the index unchanged whether or not the
backend would have failed the upload; only the Azure claim part about
wrapping backend upload errors fails (see the counterexample). -/
theorem c1_write_fail_atomicity :
    (∀ (s : Pgvector.Table) (docs : List Doc),
      (∃ d ∈ docs, (Pgvector.lookupRow s (Sum.inl d.id)).isSome = true) →
      Pgvector.writeDocumentsPg s (docs.map .doc) .fail =
        (s, .error .duplicateDocumentError)) ∧
    (∀ (s : Pgvector.Table) (batch : List BatchElem)
        (policy : DuplicatePolicy) (e : Pgvector.PgErr),
      (Pgvector.writeDocumentsPg s batch policy).2 = .error e →
      (Pgvector.writeDocumentsPg s batch policy).1 = s ∧
        (e = .valueError ∨ e = .attributeError ∨
          e = .duplicateDocumentError ∨ e = .documentStoreError)) ∧
    (∀ (s : Azure.AzureState) (docs : List Doc) (uploadFails : Bool),
      (∃ d ∈ docs, (Azure.lookupRec s.index d.id).isSome = true) →
      (Azure.writeDocumentsAzure s (docs.map .doc) .fail uploadFails).2 =
          .error .duplicateDocumentError ∧
        (Azure.writeDocumentsAzure s (docs.map .doc) .fail
          uploadFails).1.index = s.index) := by
  refine ⟨?_, ?_, ?_⟩
  · intro s docs h
    cases docs with
    | nil => rcases h with ⟨d, hd, _⟩; simp at hd
    | cons d0 ds =>
      rw [List.map_cons]
      rw [writePg_red s (.doc d0) (List.map .doc ds) .fail (by simp)]
      rw [show Pgvector.fromHaystackToPgDocuments
          (BatchElem.doc d0 :: List.map BatchElem.doc ds) =
        .ok (List.map Pgvector.pgRowOfDoc (d0 :: ds)) from
        fromHaystack_map_doc (d0 :: ds)]
      dsimp only
      rw [if_neg (by decide)]
      have hdup := executeMany_fail_dup (d0 :: ds) s h
      cases hR : Pgvector.executeMany .fail s
          (List.map Pgvector.pgRowOfDoc (d0 :: ds)) with
      | mk txf r =>
        rw [hR] at hdup
        simp at hdup
        subst hdup
        rfl
  · exact fun s batch policy e h => writePg_error_cases s batch policy e h
  · intro s docs uf h
    cases docs with
    | nil => rcases h with ⟨d, hd, _⟩; simp at hd
    | cons d0 ds =>
      rw [List.map_cons]
      rw [writeAzure_red s (.doc d0) (List.map .doc ds) .fail uf (by simp)]
      have hdup := writeLoop_fail_dup (d0 :: ds) s s.index h
      have hidx := writeLoop_index (BatchElem.doc d0 :: List.map .doc ds)
        s s.index .fail
      rw [List.map_cons] at hdup
      cases hL : Azure.writeLoop s s.index .fail
          (BatchElem.doc d0 :: List.map BatchElem.doc ds) with
      | mk s1 r =>
        rw [hL] at hdup hidx
        simp at hdup
        subst hdup
        exact ⟨rfl, hidx.1⟩

/-- Witness for `c1_write_fail_atomicity` at concrete stores holding
`sampleDoc` and a FAIL re-write of the same document. -/
theorem c1_write_fail_atomicity_witness :
    Pgvector.writeDocumentsPg [Pgvector.pgRowOfDoc sampleDoc]
        [.doc sampleDoc] .fail =
      ([Pgvector.pgRowOfDoc sampleDoc], .error .duplicateDocumentError) ∧
    ((Azure.writeDocumentsAzure
        ⟨[⟨"doc-1", some "x", [5], []⟩], none, 2⟩
        [.doc sampleDoc] .fail true).2 = .error .duplicateDocumentError ∧
      (Azure.writeDocumentsAzure
        ⟨[⟨"doc-1", some "x", [5], []⟩], none, 2⟩
        [.doc sampleDoc] .fail true).1.index =
          [⟨"doc-1", some "x", [5], []⟩]) :=
  ⟨c1_write_fail_atomicity.1 [Pgvector.pgRowOfDoc sampleDoc] [sampleDoc]
      ⟨sampleDoc, by decide, by decide⟩,
   c1_write_fail_atomicity.2.2 ⟨[⟨"doc-1", some "x", [5], []⟩], none, 2⟩
      [sampleDoc] true ⟨sampleDoc, by decide, by decide⟩⟩

/-- C9: a batch containing any element that is not a well-formed
Document — at any position — is rejected with an error by both stores
and neither store's persisted contents change. -/
theorem c9_ill_formed_batch_rejected (batch : List BatchElem)
    (h : batch.any isIllFormed = true) (s : Pgvector.Table)
    (policy : DuplicatePolicy) (saz : Azure.AzureState) (uf : Bool) :
    ((Pgvector.writeDocumentsPg s batch policy).1 = s ∧
      resultIsOk (Pgvector.writeDocumentsPg s batch policy).2 = false) ∧
    ((Azure.writeDocumentsAzure saz batch policy uf).1.index = saz.index ∧
      resultIsOk (Azure.writeDocumentsAzure saz batch policy uf).2 =
        false) := by
  obtain ⟨e1, he1⟩ := writePg_illFormed s batch policy h
  have hpg := writePg_error_cases s batch policy e1 he1
  obtain ⟨e2, he2⟩ := writeAzure_illFormed saz batch policy uf h
  have haz := writeAzure_error_frame saz batch policy uf e2 he2
  refine ⟨⟨hpg.1, ?_⟩, haz, ?_⟩
  · rw [he1]; rfl
  · rw [he2]; rfl

/-- Witness for `c9_ill_formed_batch_rejected` on a batch whose second
element is not a `Document`. -/
theorem c9_ill_formed_batch_rejected_witness :
    (([.doc sampleDoc, .notADoc] : List BatchElem).any isIllFormed = true) ∧
    ((Pgvector.writeDocumentsPg [] [.doc sampleDoc, .notADoc] .fail).1 =
        [] ∧
      resultIsOk (Pgvector.writeDocumentsPg []
        [.doc sampleDoc, .notADoc] .fail).2 = false) ∧
    ((Azure.writeDocumentsAzure ⟨[], none, 2⟩
          [.doc sampleDoc, .notADoc] .fail false).1.index = [] ∧
      resultIsOk (Azure.writeDocumentsAzure ⟨[], none, 2⟩
        [.doc sampleDoc, .notADoc] .fail false).2 = false) :=
  ⟨by decide,
   (c9_ill_formed_batch_rejected [.doc sampleDoc, .notADoc] (by decide)
     [] .fail ⟨[], none, 2⟩ false).1,
   (c9_ill_formed_batch_rejected [.doc sampleDoc, .notADoc] (by decide)
     [] .fail ⟨[], none, 2⟩ false).2⟩

/-- C4: for every batch and policy, the returned write count is
exactly the number of documents inserted plus the number overwritten
(per-statement classification against the state the statement ran in);
SKIPped documents contribute zero, and in particular a SKIP write of a
batch consisting only of already-existing ids returns 0 and changes
nothing, on both stores. -/
theorem c4_written_count :
    (∀ (s : Pgvector.Table) (docs : List Doc) (policy : DuplicatePolicy)
        (s' : Pgvector.Table) (n : Nat),
      Pgvector.writeDocumentsPg s (docs.map .doc) policy = (s', .ok n) →
      ∃ acts, Pgvector.writeActions
          (if policy = DuplicatePolicy.none then DuplicatePolicy.fail
            else policy) s (docs.map Pgvector.pgRowOfDoc) = some acts ∧
        n = acts.countP (· == WriteAction.inserted) +
          acts.countP (· == WriteAction.overwritten)) ∧
    (∀ (s : Pgvector.Table) (docs : List Doc),
      (∀ d ∈ docs, (Pgvector.lookupRow s (Sum.inl d.id)).isSome = true) →
      Pgvector.writeDocumentsPg s (docs.map .doc) .skip = (s, .ok 0)) ∧
    (∀ (s s' : Azure.AzureState) (batch : List BatchElem)
        (policy : DuplicatePolicy) (uploadFails : Bool) (n : Nat),
      Azure.writeDocumentsAzure s batch policy uploadFails = (s', .ok n) →
      ∃ acts, Azure.azureWriteActions s.index policy batch = some acts ∧
        n = acts.countP (· == WriteAction.inserted) +
          acts.countP (· == WriteAction.overwritten)) ∧
    (∀ (s : Azure.AzureState) (docs : List Doc) (uploadFails : Bool),
      (∀ d ∈ docs, (Azure.lookupRec s.index d.id).isSome = true) →
      Azure.writeDocumentsAzure s (docs.map .doc) .skip uploadFails =
        (s, .ok 0)) := by
  refine ⟨?_, writePg_skip_existing, writeAzure_ok_count, ?_⟩
  · intro s docs policy s' n h
    cases docs with
    | nil =>
      have hcomp : Pgvector.writeDocumentsPg s (List.map .doc []) policy =
          (s, .ok 0) := rfl
      rw [hcomp] at h
      simp at h
      exact ⟨[], rfl, by rw [← h.2]; rfl⟩
    | cons d0 ds =>
      rw [List.map_cons] at h
      rw [writePg_red s (.doc d0) (List.map .doc ds) policy (by simp)] at h
      rw [show Pgvector.fromHaystackToPgDocuments
          (BatchElem.doc d0 :: List.map BatchElem.doc ds) =
        .ok (List.map Pgvector.pgRowOfDoc (d0 :: ds)) from
        fromHaystack_map_doc (d0 :: ds)] at h
      dsimp only at h
      cases hR : Pgvector.executeMany
          (if policy = DuplicatePolicy.none then DuplicatePolicy.fail
            else policy) s (List.map Pgvector.pgRowOfDoc (d0 :: ds)) with
      | mk txf r =>
        rw [hR] at h
        cases r with
        | error e => cases e <;> simp at h
        | ok m =>
          simp at h
          obtain ⟨acts, hacts, hm⟩ := executeMany_count _ _ s txf m hR
          exact ⟨acts, hacts, by rw [← h.2]; exact hm⟩
  · intro s docs uf h
    cases docs with
    | nil => rfl
    | cons d0 ds =>
      rw [List.map_cons]
      rw [writeAzure_red s (.doc d0) (List.map .doc ds) .skip uf (by simp)]
      have hloop := writeLoop_skip_existing (d0 :: ds) s s.index h
      rw [List.map_cons] at hloop
      rw [hloop]
      rfl

/-- Witness for `c4_written_count`: inserting a fresh document returns
count 1 with action `inserted`, and SKIP-rewriting an existing
document returns 0 and leaves the table as it was. -/
theorem c4_written_count_witness :
    (∃ acts, Pgvector.writeActions .fail []
        [Pgvector.pgRowOfDoc sampleDoc] = some acts ∧
      1 = acts.countP (· == WriteAction.inserted) +
        acts.countP (· == WriteAction.overwritten)) ∧
    Pgvector.writeDocumentsPg [Pgvector.pgRowOfDoc sampleDoc]
        [.doc sampleDoc] .skip =
      ([Pgvector.pgRowOfDoc sampleDoc], .ok 0) ∧
    (∃ acts, Azure.azureWriteActions [] .fail [.doc sampleDoc] =
        some acts ∧
      1 = acts.countP (· == WriteAction.inserted) +
        acts.countP (· == WriteAction.overwritten)) ∧
    Azure.writeDocumentsAzure
        ⟨[⟨"doc-1", some "x", [5], []⟩], none, 2⟩
        [.doc sampleDoc] .skip true =
      (⟨[⟨"doc-1", some "x", [5], []⟩], none, 2⟩, .ok 0) :=
  ⟨c4_written_count.1 [] [sampleDoc] .fail [Pgvector.pgRowOfDoc sampleDoc]
      1 (by rfl),
   c4_written_count.2.1 [Pgvector.pgRowOfDoc sampleDoc] [sampleDoc]
      (by decide),
   c4_written_count.2.2.1 ⟨[], none, 2⟩
      ⟨[Azure.recordOfIndexDoc ⟨"doc-1", some "hello", [1, 2], [("k", "v")]⟩],
        none, 2⟩ [.doc sampleDoc] .fail false 1 (by rfl),
   c4_written_count.2.2.2 ⟨[⟨"doc-1", some "x", [5], []⟩], none, 2⟩
      [sampleDoc] true (by decide)⟩

/-- C3 (amended): for every OVERWRITE batch of `Document`s, against any
starting state, both stores complete without a duplicate error.  The
pgvector store truly replaces: the stored row under each written
document's id (its last occurrence, when the batch repeats an id)
becomes exactly the row converted from that document, every column
included, whether or not the id existed before.  The Azure store
merges instead: a metadata field of any stored record whose key no
document of the batch carries survives the "overwrite" (the
counterexample shows a surviving field the incoming document should
have erased under full replacement), so full replacement holds there
only for the fields the indexing actions explicitly carry. -/
theorem c3_overwrite_semantics (s : Pgvector.Table)
    (saz : Azure.AzureState) (docs : List Doc) :
    (∃ s' n, Pgvector.writeDocumentsPg s (docs.map .doc) .overwrite =
        (s', .ok n) ∧
      ∀ pre d post, docs = pre ++ d :: post →
        (∀ d2 ∈ post, d2.id ≠ d.id) →
        Pgvector.lookupRow s' (Sum.inl d.id) =
          some (Pgvector.pgRowOfDoc d)) ∧
    (∃ s' n, Azure.writeDocumentsAzure saz (docs.map .doc)
        .overwrite false = (s', .ok n) ∧
      ∀ i old k v, Azure.lookupRec saz.index i = some old →
        (k, v) ∈ old.meta →
        (∀ d ∈ docs, (d.meta.map Prod.fst).contains k = false) →
        ∃ rec, Azure.lookupRec s'.index i = some rec ∧
          (k, v) ∈ rec.meta) := by
  constructor
  · cases docs with
    | nil =>
      refine ⟨s, 0, rfl, ?_⟩
      intro pre d post hEq _
      exact absurd (List.append_eq_nil.mp hEq.symm).2 (List.cons_ne_nil d post)
    | cons d0 ds =>
      obtain ⟨txf, n, hE⟩ := executeMany_overwrite_ok
        ((d0 :: ds).map Pgvector.pgRowOfDoc) s
        (fun r hr => by
          obtain ⟨d, _, rfl⟩ := List.mem_map.mp hr
          exact ⟨d.id, rfl⟩)
      refine ⟨txf, n, ?_, ?_⟩
      · rw [List.map_cons, writePg_red s (.doc d0) (List.map .doc ds)
          .overwrite (by simp)]
        have hconv := fromHaystack_map_doc (d0 :: ds)
        rw [List.map_cons] at hconv
        rw [hconv]
        dsimp only
        rw [if_neg (by decide)]
        rw [hE]
      · intro pre d post hEq hpost
        rw [hEq, List.map_append, List.map_cons] at hE
        exact executeMany_overwrite_last (pre.map Pgvector.pgRowOfDoc)
          (Pgvector.pgRowOfDoc d) (post.map Pgvector.pgRowOfDoc) s txf n hE
          (fun r2 hr2 => by
            obtain ⟨d2, hd2, rfl⟩ := List.mem_map.mp hr2
            intro hc
            exact hpost d2 hd2 (Sum.inl.inj hc))
  · cases docs with
    | nil =>
      refine ⟨saz, 0, rfl, ?_⟩
      intro i old k v hold hkv _
      exact ⟨old, hold, hkv⟩
    | cons d0 ds =>
      obtain ⟨s1, l, hL, hmeta⟩ := writeLoop_overwrite_ok (d0 :: ds) saz
        saz.index
      have hidx1 : s1.index = saz.index := by
        have h2 := (writeLoop_index ((d0 :: ds).map .doc) saz saz.index
          .overwrite).1
        rw [hL] at h2
        exact h2
      rw [List.map_cons, writeAzure_red saz (.doc d0) (List.map .doc ds)
        .overwrite false (by simp)]
      rw [List.map_cons] at hL
      rw [hL]
      dsimp only
      by_cases hl0 : l = []
      · rw [if_pos hl0]
        refine ⟨s1, 0, rfl, ?_⟩
        intro i old k v hold hkv _
        refine ⟨old, ?_, hkv⟩
        rw [hidx1]
        exact hold
      · rw [if_neg hl0, if_neg Bool.false_ne_true]
        refine ⟨_, l.length, rfl, ?_⟩
        intro i old k v hold hkv hall
        have hall2 : ∀ a ∈ l, (a.meta.map Prod.fst).contains k = false := by
          intro a ha
          obtain ⟨d, hd, hmeta2⟩ := hmeta a ha
          rw [hmeta2]
          exact hall d hd
        have h0 : Azure.lookupRec s1.index i = some old := by
          rw [hidx1]
          exact hold
        exact mergeOrUpload_retain l s1.index i old k v h0 hkv hall2

/-- Witness for `c3_overwrite_semantics`: a one-document batch written
over a table holding the id and over an index whose stored record
carries a `lang` field the incoming document does not; pgvector ends
with the converted row, Azure retains the field. -/
theorem c3_overwrite_semantics_witness :
    (∃ s' n, Pgvector.writeDocumentsPg [] [.doc sampleDoc] .overwrite =
        (s', .ok n) ∧
      Pgvector.lookupRow s' (Sum.inl "doc-1") =
        some (Pgvector.pgRowOfDoc sampleDoc)) ∧
    (∃ s' n rec, Azure.writeDocumentsAzure
        ⟨[⟨"doc-1", some "old", [5, 5], [("lang", "en")]⟩], none, 2⟩
        [.doc sampleDoc] .overwrite false = (s', .ok n) ∧
      Azure.lookupRec s'.index "doc-1" = some rec ∧
        ("lang", "en") ∈ rec.meta) := by
  obtain ⟨⟨s1, n1, hE1, hP1⟩, s2, n2, hE2, hR⟩ :=
    c3_overwrite_semantics []
      ⟨[⟨"doc-1", some "old", [5, 5], [("lang", "en")]⟩], none, 2⟩
      [sampleDoc]
  obtain ⟨rec, hrec, hkv⟩ := hR "doc-1"
    ⟨"doc-1", some "old", [5, 5], [("lang", "en")]⟩ "lang" "en"
    (by decide) (by decide) (by decide)
  exact ⟨⟨s1, n1, hE1, hP1 [] sampleDoc [] rfl (by simp)⟩,
    s2, n2, rec, hE2, hrec, hkv⟩

end DocStores
